import Mathlib

/-!
# Verification of the tinystate entry-graph engine and store layer

This development gives a shallow embedding, in Lean, of the reactive state
container in this repository, and settles a list of claims about it.

Two layers of the repository are embedded:

* the entry-graph engine of `src/lib/common.ts` (entries, schemas, the
  Manager with its three pending sets and the scheduled drain), together
  with the schema implementations of its era: the scalar schema
  (`src/unnamed/part_011`, second copy), the `computed` narrowing schema
  (`src/unnamed/part_009`), the `object` widening schema
  (`src/unnamed/part_010`) and the `map` widening schema
  (`src/unnamed/part_014`);
* the `invalidate`/`set` path of the older engine variant in
  `src/lib/extend.ts` (second document of that file), together with the
  scalar of `src/lib/scalar.ts` whose `change` calls `entry.invalidate()`;
* the path-patching store of `src/src/core.ts` (`patchStateValue`,
  `patchStore`, `update`, `patch`) with its circular-reference detection.

JavaScript values are modelled by the inductive `Val`; the `UNCHANGED` /
`VALUE_UNSET` / `VALUE_KEEP` sentinels are modelled by `Option.none` in the
positions where the code stores or returns them.  Mutable state is threaded
explicitly: every engine operation maps a system state `Sys` to a result
`Except Err α × Sys`, so that state mutated before a throw survives the
throw, exactly as in JavaScript.  Recursion between `get`, `compute`,
`set`, `change` and `invalidate` is unbounded in the source (it is bounded
only by the actual tree), so the mutual block below takes an explicit fuel
argument; concrete executions use a fuel that is large enough, and fuel
exhaustion is a distinguished error that never occurs in any run proved
about here.

Ghost instrumentation (the `trace` field of `Sys` and the list of phase
markers returned by `doUpdate`) records which listener invocations,
`compute` invocations and `invalidate` entries occurred, and in which
order entries were processed during a drain.  It is write-only: no engine
operation reads it, so it does not affect behaviour.
-/

namespace TinyState

/-- A JavaScript value as used by the state tree: numbers and strings as
leaf scalars, `undefined`, plain objects (ordered association lists, the
insertion order of a JS object), and read-only maps (the value of the
`map` schema). -/
inductive Val where
  | num (n : Int)
  | str (s : String)
  | undef
  | obj (fields : List (String × Val))
  | vmap (fields : List (String × Val))

/-- The three schema kinds of `common.ts`: `KIND_SCALAR`, `KIND_NARROWING`,
`KIND_WIDENING`. -/
inductive Kind where
  | scalar
  | narrowing
  | widening
deriving DecidableEq, Repr

/-- Errors thrown by the engine.  Each constructor corresponds to one
`throw` site in the source; `outOfFuel` is an artefact of the embedding
(see the module comment). -/
inductive Err where
  /-- "Entry is not initialized or has been destroyed" (`getEntryImpl`). -/
  | destroyed
  /-- "Recursive compute call detected" (`EntryImpl._get`). -/
  | recursiveCompute
  /-- "compute() returned UNCHANGED for entry without a value" (`EntryImpl._get`). -/
  | computeKeepNoValue
  /-- `InvalidMemberError` ("The key provided is not a valid member of this schema"). -/
  | invalidMember
  /-- `NoParentError` ("This entry has no parent..."). -/
  | noParent
  /-- `NotImplementedError` ("This method is not implemented"). -/
  | notImplemented
  /-- "Too many iterations in state manager timeout, possible infinite loop"
  (`Manager._scheduleUpdate`). -/
  | infiniteLoop
  /-- Fuel exhaustion of the embedding; not an error of the source. -/
  | outOfFuel
deriving DecidableEq, Repr

/-- `MembersFlags` of `common.ts`, a bit set: bit 0 is `MEMBERS_DEPENDANTS`
(include narrowing members), bit 1 is `MEMBERS_UNCHANGED` (seed the object
computation with the default). -/
abbrev MembersFlags := Nat

def MEMBERS_DEFAULT : MembersFlags := 0
def MEMBERS_DEPENDANTS : MembersFlags := 1
def MEMBERS_UNCHANGED : MembersFlags := 2
def MEMBERS_ALL : MembersFlags := 3

/-- The closed family of schemas needed by the claims.  Each constructor
embeds one schema implementation of the repository:

* `scalarS default cmp` — the `UNCHANGED`-era scalar
  (`src/unnamed/part_011`, lines 185-225): its `change` compares against
  the previous value and does *not* call `invalidate` (that era's engine,
  `common.ts`, invalidates inside `_set` itself);
* `scalarB default cmp` — the scalar of `src/lib/scalar.ts`: same
  comparison, but its `change` calls `entry.invalidate()` after accepting
  a write (the `extend.ts`-era engine does not invalidate in `set`);
* `computedS f cmp` — `computed` of `src/unnamed/part_009`: a narrowing
  schema computing `f` of the parent's value, suppressing the update when
  `cmp` reports equality; rejects all direct writes;
* `objectS members` — `object` of `src/unnamed/part_010`: a widening
  schema assembling its value from its members;
* `mapS valueSchema` — `map` of `src/unnamed/part_014`: a widening schema
  with dynamic string keys, all sharing `valueSchema`; the only schema of
  this family implementing `isMemberPermanent` (always `false`). -/
inductive SchemaK where
  | scalarS (default : Val) (cmp : Val → Val → Bool)
  | scalarB (default : Val) (cmp : Val → Val → Bool)
  | computedS (f : Val → Val) (cmp : Val → Val → Bool)
  | objectS (members : List (String × SchemaK))
  | mapS (valueSchema : SchemaK)

/-- `schema.kind` for each embedded schema. -/
def kindOfS : SchemaK → Kind
  | .scalarS .. => .scalar
  | .scalarB .. => .scalar
  | .computedS .. => .narrowing
  | .objectS .. => .widening
  | .mapS .. => .widening

/-- Association-list lookup (the first binding wins), modelling JS `Map.get`
and property access. -/
def findA {κ α : Type} [DecidableEq κ] (k : κ) : List (κ × α) → Option α
  | [] => none
  | (k', v) :: rest => if k = k' then some v else findA k rest

/-- Association-list upsert preserving insertion order, modelling JS
`Map.set` / property assignment: an existing key is updated in place, a
new key is appended. -/
def setA {κ α : Type} [DecidableEq κ] (k : κ) (v : α) : List (κ × α) → List (κ × α)
  | [] => [(k, v)]
  | (k', v') :: rest => if k = k' then (k, v) :: rest else (k', v') :: setA k v rest

/-- Association-list deletion, modelling JS `Map.delete` / `delete obj[k]`. -/
def removeA {κ α : Type} [DecidableEq κ] (k : κ) : List (κ × α) → List (κ × α)
  | [] => []
  | (k', v') :: rest => if k = k' then rest else (k', v') :: removeA k rest

mutual

/-- `schema.computeDefault()` for each embedded schema: scalars return
their default, narrowing schemas throw `NotImplementedError` (the
`NARROWING_PROTO` of `common.ts`), `object` assembles the defaults of its
non-narrowing members (`mapObject` with the kind filter), `map` returns
the empty map (`MAP_EMPTY`). -/
def computeDefaultS : SchemaK → Except Err Val
  | .scalarS d _ => .ok d
  | .scalarB d _ => .ok d
  | .computedS .. => .error .notImplemented
  | .objectS ms => do
    let fields ← defaultFieldsS ms
    .ok (.obj fields)
  | .mapS _ => .ok (.vmap [])

/-- The member fold of `object`'s `computeDefault`: defaults of the
non-narrowing members, in declaration order. -/
def defaultFieldsS : List (String × SchemaK) → Except Err (List (String × Val))
  | [] => .ok []
  | (k, sch) :: rest =>
    if kindOfS sch = .narrowing then
      defaultFieldsS rest
    else do
      let v ← computeDefaultS sch
      let tail ← defaultFieldsS rest
      .ok ((k, v) :: tail)

end

/-- `schema.getMember(key)`: scalars and `computed` throw
`InvalidMemberError`; `object` looks the key up among its declared members
(`src/unnamed/part_010` returns `undefined` for an unknown key, which
crashes the engine on first use; we surface that as `invalidMember`);
`map` returns its value schema for every key. -/
def getMemberS (sch : SchemaK) (key : String) : Except Err SchemaK :=
  match sch with
  | .scalarS .. => .error .invalidMember
  | .scalarB .. => .error .invalidMember
  | .computedS .. => .error .invalidMember
  | .objectS ms =>
    match findA key ms with
    | some m => .ok m
    | none => .error .invalidMember
  | .mapS vs => .ok vs

/-- `schema.isMemberPermanent(key)`: only `map` implements it (always
`false`); the scalar and narrowing prototypes throw `InvalidMemberError`,
and the `object` of `src/unnamed/part_010` does not define the method at
all, so calling it is a `TypeError` — modelled as `notImplemented`. -/
def isMemberPermanentS (sch : SchemaK) (_key : String) : Except Err Bool :=
  match sch with
  | .scalarS .. => .error .invalidMember
  | .scalarB .. => .error .invalidMember
  | .computedS .. => .error .invalidMember
  | .objectS _ => .error .notImplemented
  | .mapS _ => .ok false

/-- Ghost trace events: `compute` invocations, listener invocations,
`invalidate` entries, and errors caught-and-logged by the drain
(`console.error`). -/
inductive Ev where
  | computeE (id : Nat)
  | listenerE (lid : Nat) (value : Val) (prev : Option Val)
  | invalidE (id : Nat)
  | errorE (e : Err)

/-- One live entry (the fields of `EntryImpl` in `common.ts`): its schema,
parent link, depth (`_depth`, root is 0), instantiated members in
insertion order (`_members`), subscribed listeners (`_listeners`, as ghost
listener identifiers), the cached value `_value` and previous value
`_previous` (`none` is the `UNCHANGED`/unset sentinel), and the
re-entrancy flag `_isComputing`. -/
structure EntryRec where
  schema : SchemaK
  parent : Option Nat
  depth : Nat
  members : List (String × Nat)
  listeners : List Nat
  value : Option Val
  previous : Option Val
  isComputing : Bool

/-- The whole system: the entry arena (an entry removed from the arena is
destroyed — `entryImpl.delete` in `_garbageCollect` — and every wrapper
operation on it fails), the id suppliers, the Manager state (`_toNotify`,
`_toRecompute`, `_toDestroy` as insertion-ordered duplicate-free lists,
the `_timeoutId !== undefined` flag and `_updateIteration`), and the
ghost trace. -/
structure Sys where
  entries : List (Nat × EntryRec)
  nextId : Nat
  nextListener : Nat
  toRecompute : List Nat
  toNotify : List Nat
  toDestroy : List Nat
  timeoutScheduled : Bool
  updateIteration : Nat
  trace : List Ev

/-- Result of an engine operation: an `Except` outcome together with the
state as mutated so far (state survives a throw, as in JS). -/
def Res (α : Type) : Type := Except Err α × Sys

/-- Sequencing of engine operations: propagate a throw, keeping the state
at the point of the throw. -/
def bindR {α β : Type} (r : Res α) (f : α → Sys → Res β) : Res β :=
  match r with
  | (.error e, s) => (.error e, s)
  | (.ok a, s) => f a s

/-- Look an entry up in the arena (`getEntryImpl`); `none` means the entry
has been destroyed. -/
def lookupE (s : Sys) (id : Nat) : Option EntryRec :=
  findA id s.entries

/-- Update one entry's record in the arena, in place. -/
def updEntries (id : Nat) (f : EntryRec → EntryRec) : List (Nat × EntryRec) → List (Nat × EntryRec)
  | [] => []
  | (k, e) :: rest =>
    if k = id then (k, f e) :: updEntries id f rest else (k, e) :: updEntries id f rest

/-- Update one entry's record in place. -/
def updEntry (id : Nat) (f : EntryRec → EntryRec) (s : Sys) : Sys :=
  { s with entries := updEntries id f s.entries }

/-- Append a ghost trace event. -/
def addEv (e : Ev) (s : Sys) : Sys :=
  { s with trace := s.trace ++ [e] }

/-- `Manager._updateIterationMax`: the fixed ceiling of 3. -/
def updateIterationMax : Nat := 3

/-- `Manager._scheduleUpdate`: when no callback is scheduled, increment the
iteration counter; if it now exceeds the ceiling, throw the "possible
infinite loop" error (before scheduling); otherwise schedule the callback. -/
def scheduleUpdateM (s : Sys) : Res Unit :=
  if s.timeoutScheduled then (.ok (), s)
  else if s.updateIteration + 1 > updateIterationMax then
    (.error .infiniteLoop, { s with updateIteration := s.updateIteration + 1 })
  else (.ok (), { s with updateIteration := s.updateIteration + 1, timeoutScheduled := true })

/-- `Manager._schedule` specialised to the recompute set: return `false`
without any effect if the entry is already pending, else add it and
request an update; the returned flag is the "first request in this batch"
signal that `invalidate` uses. -/
def scheduleRecomputeM (id : Nat) (s : Sys) : Res Bool :=
  if id ∈ s.toRecompute then (.ok false, s)
  else
    bindR (scheduleUpdateM { s with toRecompute := s.toRecompute ++ [id] }) fun _ s =>
      (.ok true, s)

/-- `Manager._schedule` specialised to the notify set. -/
def scheduleNotifyM (id : Nat) (s : Sys) : Res Bool :=
  if id ∈ s.toNotify then (.ok false, s)
  else
    bindR (scheduleUpdateM { s with toNotify := s.toNotify ++ [id] }) fun _ s =>
      (.ok true, s)

/-- `Manager._schedule` specialised to the destroy set (`_scheduleDestroy`
discards the flag). -/
def scheduleDestroyM (id : Nat) (s : Sys) : Res Bool :=
  if id ∈ s.toDestroy then (.ok false, s)
  else
    bindR (scheduleUpdateM { s with toDestroy := s.toDestroy ++ [id] }) fun _ s =>
      (.ok true, s)

/-- JS property access `value[key]` as used by `object`'s `change`
(`value` is expected to be a plain object; a missing key reads as
`undefined`). -/
def valGet (v : Val) (key : String) : Val :=
  match v with
  | .obj fs => (findA key fs).getD .undef
  | _ => (.undef)

/-- JS `value.get(key)` on a Map, as used by `map`'s `change`. -/
def vmapGet (v : Val) (key : String) : Option Val :=
  match v with
  | .vmap fs => findA key fs
  | _ => none

/-- The engine's operation table.  The source's `EntryImpl` methods are
mutually recursive without bound (recursion depth is bounded only by the
actual entry tree), so the embedding unrolls them one fuel level at a
time: each body below calls the *previous* level's table, and `engineC n`
is the table unrolled `n` times.  A run that would need deeper recursion
than its fuel fails with `outOfFuel`, which never happens in any run
proved about here. -/
structure Ops where
  get : Nat → MembersFlags → Sys → Res Val
  compute : Nat → SchemaK → Option Val → MembersFlags → Sys → Res (Option Val)
  changeC : Nat → SchemaK → Val → Option Val → Sys → Res (Option Val)
  changeX : Nat → SchemaK → Val → Option Val → Sys → Res (Option Val)
  setC : Nat → Val → Sys → Res Unit
  setX : Nat → Val → Sys → Res Unit
  invalidateC : Nat → Sys → Res Unit
  invalidateX : Nat → Sys → Res Unit
  hasValue : Nat → Sys → Res Bool
  isEmpty : Nat → Sys → Res Bool
  checkDelete : Nat → Sys → Res Unit
  unsetC : Nat → Sys → Res Unit
  unsetX : Nat → Sys → Res Unit
  notify : Nat → Sys → Res Unit
  recompute : Nat → Sys → Res Unit
  gc : Nat → Sys → Res Unit

/-- The fuel-exhausted table: every operation fails with `outOfFuel`. -/
def failOps : Ops where
  get := fun _ _ s => (.error .outOfFuel, s)
  compute := fun _ _ _ _ s => (.error .outOfFuel, s)
  changeC := fun _ _ _ _ s => (.error .outOfFuel, s)
  changeX := fun _ _ _ _ s => (.error .outOfFuel, s)
  setC := fun _ _ s => (.error .outOfFuel, s)
  setX := fun _ _ s => (.error .outOfFuel, s)
  invalidateC := fun _ s => (.error .outOfFuel, s)
  invalidateX := fun _ s => (.error .outOfFuel, s)
  hasValue := fun _ s => (.error .outOfFuel, s)
  isEmpty := fun _ s => (.error .outOfFuel, s)
  checkDelete := fun _ s => (.error .outOfFuel, s)
  unsetC := fun _ s => (.error .outOfFuel, s)
  unsetX := fun _ s => (.error .outOfFuel, s)
  notify := fun _ s => (.error .outOfFuel, s)
  recompute := fun _ s => (.error .outOfFuel, s)
  gc := fun _ s => (.error .outOfFuel, s)

/-- `entry.member(key)` / `EntryImpl._member`: return the memoized child
entry, or instantiate one from `schema.getMember(key)` — a fresh id at
depth `parent.depth + 1`, registered in the parent's member map. -/
def memberC (id : Nat) (key : String) (s : Sys) : Res Nat :=
  match lookupE s id with
  | none => (.error .destroyed, s)
  | some e =>
    match findA key e.members with
    | some mid => (.ok mid, s)
    | none =>
      match getMemberS e.schema key with
      | .error er => (.error er, s)
      | .ok msch =>
        let nid := s.nextId
        let fresh : EntryRec :=
          { schema := msch, parent := some id, depth := e.depth + 1, members := [],
            listeners := [], value := none, previous := none, isComputing := false }
        let s := { s with entries := s.entries ++ [(nid, fresh)], nextId := nid + 1 }
        let s := updEntry id (fun e => { e with members := e.members ++ [(key, nid)] }) s
        (.ok nid, s)

/-- `entry.subscribe(listener)` / `EntryImpl._subscribe`: register a
listener (as a ghost listener id) and return it. -/
def subscribeC (id : Nat) (s : Sys) : Res Nat :=
  match lookupE s id with
  | none => (.error .destroyed, s)
  | some _ =>
    let lid := s.nextListener
    let s := updEntry id (fun e => { e with listeners := e.listeners ++ [lid] }) s
    (.ok lid, { s with nextListener := lid + 1 })

/-- The kind of a live entry (`member._getKind()`). -/
def kindOfE (s : Sys) (id : Nat) : Option Kind :=
  (lookupE s id).map fun e => kindOfS e.schema

/-- Invalidate every entry of a list in order (the member loop of the
recompute branch of `_invalidate`). -/
def invalidateList (inv : Nat → Sys → Res Unit) : List Nat → Sys → Res Unit
  | [], s => (.ok (), s)
  | id :: rest, s =>
    bindR (inv id s) fun _ s => invalidateList inv rest s

/-- Invalidate every Narrowing entry of a list in order (the member loop
of the notify branch of `_invalidate`). -/
def invalidateNarrowList (inv : Nat → Sys → Res Unit) : List Nat → Sys → Res Unit
  | [], s => (.ok (), s)
  | id :: rest, s =>
    match kindOfE s id with
    | some .narrowing => bindR (inv id s) fun _ s => invalidateNarrowList inv rest s
    | some _ => invalidateNarrowList inv rest s
    | none => (.error .destroyed, s)

/-- The member fold of `object`'s `compute`: visit the instantiated
members in insertion order, skipping Narrowing members unless
`MEMBERS_DEPENDANTS` is set, and assign each member's `get()` into the
accumulated object. -/
def computeObjFold (prev : Ops) (skipNarrow : Bool) :
    List (String × Nat) → List (String × Val) → Sys → Res (List (String × Val))
  | [], acc, s => (.ok acc, s)
  | (key, mid) :: rest, acc, s =>
    match kindOfE s mid with
    | none => (.error .destroyed, s)
    | some k =>
      if skipNarrow ∧ k = .narrowing then computeObjFold prev skipNarrow rest acc s
      else
        bindR (prev.get mid MEMBERS_DEFAULT s) fun v s =>
          computeObjFold prev skipNarrow rest (setA key v acc) s

/-- The member fold of `map`'s `compute`: visit the instantiated members
(`entry.members()`, which skips Narrowing members), keeping only those
with a value. -/
def computeMapFold (prev : Ops) :
    List (String × Nat) → List (String × Val) → Sys → Res (List (String × Val))
  | [], acc, s => (.ok acc, s)
  | (key, mid) :: rest, acc, s =>
    match kindOfE s mid with
    | none => (.error .destroyed, s)
    | some .narrowing => computeMapFold prev rest acc s
    | some _ =>
      bindR (prev.hasValue mid s) fun hv s =>
        if hv then
          bindR (prev.get mid MEMBERS_DEFAULT s) fun v s =>
            computeMapFold prev rest (acc ++ [(key, v)]) s
        else computeMapFold prev rest acc s

/-- The key fold of `object`'s `change` in `src/unnamed/part_010`: for
every declared member key of entry `id`, instantiate the member
(`entry.member(key)`), skip it if Narrowing, else
`member.set(value[key])`. -/
def changeObjFoldC (prev : Ops) (id : Nat) (value : Val) :
    List (String × SchemaK) → Sys → Res Unit
  | [], s => (.ok (), s)
  | (key, _) :: rest, s =>
    bindR (memberC id key s) fun mid s =>
      match kindOfE s mid with
      | none => (.error .destroyed, s)
      | some .narrowing => changeObjFoldC prev id value rest s
      | some _ =>
        bindR (prev.setC mid (valGet value key) s) fun _ s =>
          changeObjFoldC prev id value rest s

/-- The member fold of `object`'s `change` in the `extend.ts`-era variant
(`src/unnamed/part_011`, lines 82-133): iterate the *instantiated*
members, skip Narrowing ones, `member.set(value[key])`. -/
def changeObjFoldX (prev : Ops) (value : Val) :
    List (String × Nat) → Sys → Res Unit
  | [], s => (.ok (), s)
  | (key, mid) :: rest, s =>
    match kindOfE s mid with
    | none => (.error .destroyed, s)
    | some .narrowing => changeObjFoldX prev value rest s
    | some _ =>
      bindR (prev.setX mid (valGet value key) s) fun _ s =>
        changeObjFoldX prev value rest s

/-- First loop of `map`'s `change` (`src/unnamed/part_014`): for every
`[key, item]` of the written map, `entry.member(key).set(item)`. -/
def changeMapFold1 (prev : Ops) (id : Nat) :
    List (String × Val) → Sys → Res Unit
  | [], s => (.ok (), s)
  | (key, item) :: rest, s =>
    bindR (memberC id key s) fun mid s =>
      bindR (prev.setC mid item s) fun _ s =>
        changeMapFold1 prev id rest s

/-- Second loop of `map`'s `change`: unset every instantiated member
whose key is absent from the written map. -/
def changeMapFold2 (prev : Ops) (value : Val) :
    List (String × Nat) → Sys → Res Unit
  | [], s => (.ok (), s)
  | (key, mid) :: rest, s =>
    match vmapGet value key with
    | some _ => changeMapFold2 prev value rest s
    | none =>
      bindR (prev.unsetC mid s) fun _ s =>
        changeMapFold2 prev value rest s

/-- The member loop of `map`'s `change` in the `extend.ts` era
(`src/unnamed/part_006`): for every instantiated member, set it to
`value.get(key)` when present, else unset it. -/
def changeMapFoldX (prev : Ops) (value : Val) :
    List (String × Nat) → Sys → Res Unit
  | [], s => (.ok (), s)
  | (key, mid) :: rest, s =>
    match vmapGet value key with
    | some item =>
      bindR (prev.setX mid item s) fun _ s => changeMapFoldX prev value rest s
    | none =>
      bindR (prev.unsetX mid s) fun _ s => changeMapFoldX prev value rest s

/-- Any-member-has-a-value fold (the `hasValue` of `object` and `map`,
which iterate `entry.members()` — Narrowing members skipped). -/
def anyHasValueFold (prev : Ops) : List (String × Nat) → Sys → Res Bool
  | [], s => (.ok false, s)
  | (_, mid) :: rest, s =>
    match kindOfE s mid with
    | none => (.error .destroyed, s)
    | some .narrowing => anyHasValueFold prev rest s
    | some _ =>
      bindR (prev.hasValue mid s) fun hv s =>
        if hv then (.ok true, s) else anyHasValueFold prev rest s

/-- Unset every non-Narrowing member (the `unset` of `object` and `map`,
which iterate `entry.members()`). -/
def unsetMembersFold (un : Nat → Sys → Res Unit) : List (String × Nat) → Sys → Res Unit
  | [], s => (.ok (), s)
  | (_, mid) :: rest, s =>
    match kindOfE s mid with
    | none => (.error .destroyed, s)
    | some .narrowing => unsetMembersFold un rest s
    | some _ =>
      bindR (un mid s) fun _ s => unsetMembersFold un rest s

/-- The member sweep of `_garbageCollect`: for each cached member, if the
schema does not mark it permanent and the member is empty, drop it from
the member map and destroy it (remove it from the arena —
`entryImpl.delete(member._oid)`). -/
def gcSweepFold (prev : Ops) (id : Nat) (sch : SchemaK) :
    List (String × Nat) → Sys → Res Unit
  | [], s => (.ok (), s)
  | (key, mid) :: rest, s =>
    match isMemberPermanentS sch key with
    | .error er => (.error er, s)
    | .ok true => gcSweepFold prev id sch rest s
    | .ok false =>
      bindR (prev.isEmpty mid s) fun em s =>
        if em then
          let s := updEntry id (fun e => { e with members := removeA key e.members }) s
          let s := { s with entries := s.entries.filter fun p => p.1 ≠ mid }
          gcSweepFold prev id sch rest s
        else gcSweepFold prev id sch rest s

/-- The listener loop of `_notify`: invoke (here: record) every listener
with the fresh value and the previous value. -/
def fireListeners (v : Val) (prev : Option Val) : List Nat → Sys → Sys
  | [], s => s
  | lid :: rest, s => fireListeners v prev rest (addEv (.listenerE lid v prev) s)

/-- `EntryImpl._get` (common.ts, lines 190-207) behind the wrapper's
destroyed check: return the cached value if present; otherwise guard
against re-entrant computation, invoke `schema.compute` with the unset
sentinel, reject a "keep" result (`UNCHANGED`) as a contract violation,
and cache the produced value.  The `finally` that clears `_isComputing`
is mirrored on every exit path of the computing branch. -/
def getBody (prev : Ops) (id : Nat) (flags : MembersFlags) (s : Sys) : Res Val :=
  match lookupE s id with
  | none => (.error .destroyed, s)
  | some e =>
    match e.value with
    | some v => (.ok v, s)
    | none =>
      if e.isComputing then
        (.error .recursiveCompute, updEntry id (fun e => { e with isComputing := false }) s)
      else
        let s := updEntry id (fun e => { e with isComputing := true }) s
        let s := addEv (.computeE id) s
        match prev.compute id e.schema none flags s with
        | (.error er, s) =>
          (.error er, updEntry id (fun e => { e with isComputing := false }) s)
        | (.ok none, s) =>
          (.error .computeKeepNoValue, updEntry id (fun e => { e with isComputing := false }) s)
        | (.ok (some v), s) =>
          (.ok v, updEntry id (fun e => { e with isComputing := false, value := some v }) s)

/-- `schema.compute` for each embedded schema (see `SchemaK`): the scalar
returns its default from the unset sentinel and `UNCHANGED` otherwise;
`computed` applies its function to `parent.get(MEMBERS_UNCHANGED)` and
suppresses an unchanged result via its comparator; `object` assembles an
object from its members (seeded with the default under
`MEMBERS_UNCHANGED`); `map` collects its members that have a value. -/
def computeBody (prev : Ops) (id : Nat) (sch : SchemaK) (value : Option Val)
    (flags : MembersFlags) (s : Sys) : Res (Option Val) :=
  match sch with
  | .scalarS d _ =>
    match value with
    | none => (.ok (some d), s)
    | some _ => (.ok none, s)
  | .scalarB d _ =>
    match value with
    | none => (.ok (some d), s)
    | some _ => (.ok none, s)
  | .computedS f cmp =>
    match lookupE s id with
    | none => (.error .destroyed, s)
    | some e =>
      match e.parent with
      | none => (.error .noParent, s)
      | some pid =>
        bindR (prev.get pid MEMBERS_UNCHANGED s) fun pv s =>
          let nv := f pv
          match value with
          | some v => if cmp v nv then (.ok none, s) else (.ok (some nv), s)
          | none => (.ok (some nv), s)
  | .objectS ms =>
    match lookupE s id with
    | none => (.error .destroyed, s)
    | some e =>
      let base : Except Err (List (String × Val)) :=
        if flags &&& MEMBERS_UNCHANGED ≠ 0 then
          match computeDefaultS (.objectS ms) with
          | .ok (.obj fields) => .ok fields
          | .ok _ => .ok []
          | .error er => .error er
        else .ok []
      match base with
      | .error er => (.error er, s)
      | .ok fields =>
        bindR (computeObjFold prev (flags &&& MEMBERS_DEPENDANTS = 0) e.members fields s)
          fun fields s => (.ok (some (.obj fields)), s)
  | .mapS _ =>
    match lookupE s id with
    | none => (.error .destroyed, s)
    | some e =>
      bindR (computeMapFold prev e.members [] s) fun fields s =>
        (.ok (some (.vmap fields)), s)

/-- `schema.change` in the `common.ts` era: the scalar
(`src/unnamed/part_011`, lines 185-225) rejects a write equal (by its
comparator) to a previous value and otherwise just returns the value —
it does *not* invalidate, because that engine's `_set` invalidates
itself; `computed` rejects all writes; `object` fans the write out to its
declared non-Narrowing members; `map` sets the written keys and unsets
the missing ones.  `scalarB` is the `src/lib/scalar.ts` scalar, whose
`change` calls `entry.invalidate()` after accepting a write. -/
def changeCBody (prev : Ops) (id : Nat) (sch : SchemaK) (value : Val)
    (prevVal : Option Val) (s : Sys) : Res (Option Val) :=
  match sch with
  | .scalarS _ cmp =>
    match prevVal with
    | some p => if cmp value p then (.ok none, s) else (.ok (some value), s)
    | none => (.ok (some value), s)
  | .scalarB _ cmp =>
    match prevVal with
    | some p =>
      if cmp value p then (.ok none, s)
      else bindR (prev.invalidateC id s) fun _ s => (.ok (some value), s)
    | none => bindR (prev.invalidateC id s) fun _ s => (.ok (some value), s)
  | .computedS _ _ => (.ok none, s)
  | .objectS ms =>
    bindR (changeObjFoldC prev id value ms s) fun _ s => (.ok none, s)
  | .mapS _ =>
    match lookupE s id with
    | none => (.error .destroyed, s)
    | some _ =>
      let fields := match value with | .vmap fs => fs | _ => []
      bindR (changeMapFold1 prev id fields s) fun _ s =>
        match lookupE s id with
        | none => (.error .destroyed, s)
        | some e' =>
          bindR (changeMapFold2 prev value e'.members s) fun _ s => (.ok none, s)

/-- `schema.change` as run under the `extend.ts`-era engine: identical
dispatch, except that `entry.invalidate()` goes to that engine's
`invalidate`, and the `object` variant (`src/unnamed/part_011`, lines
82-133) iterates the instantiated members rather than the declared keys. -/
def changeXBody (prev : Ops) (id : Nat) (sch : SchemaK) (value : Val)
    (prevVal : Option Val) (s : Sys) : Res (Option Val) :=
  match sch with
  | .scalarS _ cmp =>
    match prevVal with
    | some p => if cmp value p then (.ok none, s) else (.ok (some value), s)
    | none => (.ok (some value), s)
  | .scalarB _ cmp =>
    match prevVal with
    | some p =>
      if cmp value p then (.ok none, s)
      else bindR (prev.invalidateX id s) fun _ s => (.ok (some value), s)
    | none => bindR (prev.invalidateX id s) fun _ s => (.ok (some value), s)
  | .computedS _ _ => (.ok none, s)
  | .objectS _ =>
    match lookupE s id with
    | none => (.error .destroyed, s)
    | some e =>
      bindR (changeObjFoldX prev value e.members s) fun _ s => (.ok none, s)
  | .mapS _ =>
    match lookupE s id with
    | none => (.error .destroyed, s)
    | some e =>
      bindR (changeMapFoldX prev value e.members s) fun _ s => (.ok none, s)

/-- `EntryImpl._set` (common.ts, lines 221-228): invoke `schema.change`
with the current value; when the result is not `UNCHANGED`, replace the
cached value, *invalidate* (this engine variant invalidates inside set),
and schedule destruction if the entry became empty. -/
def setCBody (prev : Ops) (id : Nat) (v : Val) (s : Sys) : Res Unit :=
  match lookupE s id with
  | none => (.error .destroyed, s)
  | some e =>
    bindR (prev.changeC id e.schema v e.value s) fun nv s =>
      match nv with
      | none => (.ok (), s)
      | some newV =>
        let s := updEntry id (fun e => { e with value := some newV }) s
        bindR (prev.invalidateC id s) fun _ s => prev.checkDelete id s

/-- `Entry.set` of `extend.ts` (lines 226-235): invoke `schema.change`;
when the result is not the keep sentinel, replace the cached value and
check for emptiness.  This variant performs *no* invalidation itself —
propagation happens only if the schema's `change` called `invalidate`. -/
def setXBody (prev : Ops) (id : Nat) (v : Val) (s : Sys) : Res Unit :=
  match lookupE s id with
  | none => (.error .destroyed, s)
  | some e =>
    bindR (prev.changeX id e.schema v e.value s) fun nv s =>
      match nv with
      | none => (.ok (), s)
      | some newV =>
        let s := updEntry id (fun e => { e with value := some newV }) s
        prev.checkDelete id s

/-- `EntryImpl._invalidate` (common.ts, lines 234-255).  Note the exact
shape: a Widening entry discards its cache, any *other* kind (Scalar
included) is scheduled for recompute with its children invalidated on the
first request; and for any non-Narrowing kind the parent is invalidated
*unconditionally* before the entry is scheduled for notify, with
Narrowing children invalidated on the first notify request. -/
def invalidateCBody (prev : Ops) (id : Nat) (s : Sys) : Res Unit :=
  match lookupE s id with
  | none => (.error .destroyed, s)
  | some e =>
    let s := addEv (.invalidE id) s
    let k := kindOfS e.schema
    let step1 : Res Unit :=
      if k = .widening then (.ok (), updEntry id (fun e => { e with value := none }) s)
      else
        bindR (scheduleRecomputeM id s) fun first s =>
          if first then invalidateList prev.invalidateC (e.members.map Prod.snd) s
          else (.ok (), s)
    bindR step1 fun _ s =>
      if k = .narrowing then (.ok (), s)
      else
        let pstep : Res Unit :=
          match e.parent with
          | some pid => prev.invalidateC pid s
          | none => (.ok (), s)
        bindR pstep fun _ s =>
          bindR (scheduleNotifyM id s) fun first s =>
            if first then invalidateNarrowList prev.invalidateC (e.members.map Prod.snd) s
            else (.ok (), s)

/-- `Entry.invalidate` of `extend.ts` (lines 249-273): a Narrowing entry
is scheduled for recompute and, exactly on the first request of the
batch, its children are invalidated; otherwise (Scalar or Widening) the
Widening cache is discarded, the entry is scheduled for notify and,
exactly on the first request, the parent is invalidated and the Narrowing
children are invalidated. -/
def invalidateXAfter (prev : Ops) (id : Nat) (e : EntryRec) (s : Sys) : Res Unit :=
  let k := kindOfS e.schema
  if k = .narrowing then
      bindR (scheduleRecomputeM id s) fun first s =>
        if first then invalidateList prev.invalidateX (e.members.map Prod.snd) s
        else (.ok (), s)
    else
      let s := if k = .widening then updEntry id (fun e => { e with value := none }) s else s
      bindR (scheduleNotifyM id s) fun first s =>
        if first then
          let pstep : Res Unit :=
            match e.parent with
            | some pid => prev.invalidateX pid s
            | none => (.ok (), s)
          bindR pstep fun _ s =>
            invalidateNarrowList prev.invalidateX (e.members.map Prod.snd) s
        else (.ok (), s)

/-- `Entry.invalidate` of `extend.ts`, assembled: destroyed check, the
ghost mark, then the kind dispatch of `invalidateXAfter`. -/
def invalidateXBody (prev : Ops) (id : Nat) (s : Sys) : Res Unit :=
  match lookupE s id with
  | none => (.error .destroyed, s)
  | some e => invalidateXAfter prev id e (addEv (.invalidE id) s)

/-- `Entry.hasValue` → `schema.hasValue`: scalar compares the stored
value against the default, `computed` never has a value, `object` and
`map` ask their (non-Narrowing) members. -/
def hasValueBody (prev : Ops) (id : Nat) (s : Sys) : Res Bool :=
  match lookupE s id with
  | none => (.error .destroyed, s)
  | some e =>
    match e.schema with
    | .scalarS d cmp =>
      match e.value with
      | none => (.ok false, s)
      | some v => (.ok (!cmp v d), s)
    | .scalarB d cmp =>
      match e.value with
      | none => (.ok false, s)
      | some v => (.ok (!cmp v d), s)
    | .computedS _ _ => (.ok false, s)
    | .objectS _ => anyHasValueFold prev e.members s
    | .mapS _ => anyHasValueFold prev e.members s

/-- `EntryImpl._isEmpty`: no listeners, no cached members, no value. -/
def isEmptyBody (prev : Ops) (id : Nat) (s : Sys) : Res Bool :=
  match lookupE s id with
  | none => (.error .destroyed, s)
  | some e =>
    if e.listeners ≠ [] ∨ e.members ≠ [] then (.ok false, s)
    else
      bindR (prev.hasValue id s) fun hv s => (.ok (!hv), s)

/-- `EntryImpl._checkDelete`: schedule destruction when empty. -/
def checkDeleteBody (prev : Ops) (id : Nat) (s : Sys) : Res Unit :=
  bindR (prev.isEmpty id s) fun em s =>
    if em then bindR (scheduleDestroyM id s) fun _ s => (.ok (), s)
    else (.ok (), s)

/-- `Entry.unset` in the `common.ts` engine: delegate to `schema.unset`
(scalar: `entry.set(default)`; `computed`: nothing; `object`/`map`: unset
the members). -/
def unsetCBody (prev : Ops) (id : Nat) (s : Sys) : Res Unit :=
  match lookupE s id with
  | none => (.error .destroyed, s)
  | some e =>
    match e.schema with
    | .scalarS d _ => prev.setC id d s
    | .scalarB d _ => prev.setC id d s
    | .computedS _ _ => (.ok (), s)
    | .objectS _ => unsetMembersFold prev.unsetC e.members s
    | .mapS _ => unsetMembersFold prev.unsetC e.members s

/-- `Entry.unset` of `extend.ts` (lines 237-247): a Widening entry first
unsets all members, then `schema.unset` runs (which for `object`/`map`
unsets the members again). -/
def unsetXBody (prev : Ops) (id : Nat) (s : Sys) : Res Unit :=
  match lookupE s id with
  | none => (.error .destroyed, s)
  | some e =>
    let pre : Res Unit :=
      if kindOfS e.schema = .widening then
        unsetMembersFold prev.unsetX e.members s
      else (.ok (), s)
    bindR pre fun _ s =>
      match e.schema with
      | .scalarS d _ => prev.setX id d s
      | .scalarB d _ => prev.setX id d s
      | .computedS _ _ => (.ok (), s)
      | .objectS _ =>
        match lookupE s id with
        | none => (.error .destroyed, s)
        | some e' => unsetMembersFold prev.unsetX e'.members s
      | .mapS _ =>
        match lookupE s id with
        | none => (.error .destroyed, s)
        | some e' => unsetMembersFold prev.unsetX e'.members s

/-- `EntryImpl._notify` (common.ts, lines 284-291): read the previous
value, `get()` the fresh value, store it as the new previous value, then
invoke every listener with `(value, previous)`. -/
def notifyBody (prev : Ops) (id : Nat) (s : Sys) : Res Unit :=
  match lookupE s id with
  | none => (.error .destroyed, s)
  | some e =>
    let prevVal := e.previous
    bindR (prev.get id MEMBERS_DEFAULT s) fun v s =>
      let s := updEntry id (fun e => { e with previous := some v }) s
      (.ok (), fireListeners v prevVal e.listeners s)

/-- `EntryImpl._recompute` (common.ts, lines 293-299): invoke
`schema.compute` with the current value; when the result is not
`UNCHANGED`, store it and schedule the entry for notify. -/
def recomputeBody (prev : Ops) (id : Nat) (s : Sys) : Res Unit :=
  match lookupE s id with
  | none => (.error .destroyed, s)
  | some e =>
    let s := addEv (.computeE id) s
    bindR (prev.compute id e.schema e.value MEMBERS_DEFAULT s) fun nv s =>
      match nv with
      | none => (.ok (), s)
      | some v =>
        let s := updEntry id (fun e => { e with value := some v }) s
        bindR (scheduleNotifyM id s) fun _ s => (.ok (), s)

/-- `EntryImpl._garbageCollect` (common.ts, lines 263-273): sweep the
member cache, dropping (and destroying) every non-permanent empty member;
then, if the entry itself is empty, garbage-collect the parent.  An
already-destroyed entry is a no-op here. -/
def gcBody (prev : Ops) (id : Nat) (s : Sys) : Res Unit :=
  match lookupE s id with
  | none => (.ok (), s)
  | some e =>
    bindR (gcSweepFold prev id e.schema e.members s) fun _ s =>
      bindR (prev.isEmpty id s) fun em s =>
        if em then
          match e.parent with
          | some pid => prev.gc pid s
          | none => (.ok (), s)
        else (.ok (), s)

/-- One unrolling step: every operation body, fed with the previous
fuel level's table. -/
def mkOps (prev : Ops) : Ops where
  get := getBody prev
  compute := computeBody prev
  changeC := changeCBody prev
  changeX := changeXBody prev
  setC := setCBody prev
  setX := setXBody prev
  invalidateC := invalidateCBody prev
  invalidateX := invalidateXBody prev
  hasValue := hasValueBody prev
  isEmpty := isEmptyBody prev
  checkDelete := checkDeleteBody prev
  unsetC := unsetCBody prev
  unsetX := unsetXBody prev
  notify := notifyBody prev
  recompute := recomputeBody prev
  gc := gcBody prev

/-- The engine table at a given fuel. -/
def engine : Nat → Ops
  | 0 => failOps
  | n + 1 => mkOps (engine n)

/-! ## The Manager's drain (`_doUpdate`) -/

/-- The three phases of a drain, in their fixed processing order. -/
inductive Phase where
  | recomp
  | noti
  | destr
deriving DecidableEq, Repr

/-- The live pending set of a phase. -/
def phasePending (p : Phase) (s : Sys) : List Nat :=
  match p with
  | .recomp => s.toRecompute
  | .noti => s.toNotify
  | .destr => s.toDestroy

/-- Clear the live pending set of a phase (`set.clear()` after the
snapshot was taken). -/
def clearPending (p : Phase) (s : Sys) : Sys :=
  match p with
  | .recomp => { s with toRecompute := [] }
  | .noti => { s with toNotify := [] }
  | .destr => { s with toDestroy := [] }

/-- `entry._depth`, as read by `sortEntries` (common.ts, lines 341-343). -/
def depthOf (s : Sys) (id : Nat) : Nat :=
  match lookupE s id with
  | some e => e.depth
  | none => 0

/-- `setCopy.sort(sortEntries)`: sort the snapshot by ascending depth.
`Array.prototype.sort` is stable, and insertion sort with a reflexive
total preorder is *the* stable sort, so this is extensionally the JS
sort. -/
def sortByDepth (s : Sys) (l : List Nat) : List Nat :=
  List.insertionSort (fun a b => depthOf s a ≤ depthOf s b) l

/-- The per-phase entry action: `_recompute`, `_notify` or
`_garbageCollect`. -/
def phaseStep (ops : Ops) (p : Phase) (id : Nat) (s : Sys) : Res Unit :=
  match p with
  | .recomp => ops.recompute id s
  | .noti => ops.notify id s
  | .destr => ops.gc id s

/-- Process the snapshotted entries of one phase in order.  A throw from
one entry is caught and logged (`console.error`) and the batch
continues. -/
def runEntries (ops : Ops) (p : Phase) : List Nat → Sys → Sys
  | [], s => s
  | id :: rest, s =>
    let s' :=
      match phaseStep ops p id s with
      | (.ok _, s') => s'
      | (.error e, s') => addEv (.errorE e) s'
    runEntries ops p rest s'

/-- One phase of the drain: snapshot the live set, clear it, sort the
snapshot by depth, process it.  Returns the processed state together with
the ghost list of phase markers — one `(p, id)` per processed entry, in
processing order. -/
def runPhase (ops : Ops) (p : Phase) (s : Sys) : Sys × List (Phase × Nat) :=
  let snap := sortByDepth s (phasePending p s)
  let s := clearPending p s
  (runEntries ops p snap s, snap.map fun id => (p, id))

/-- `Manager._doUpdate` (common.ts, lines 471-495): clear the timeout
handle, process recompute, then notify, then destroy — each phase
snapshotting and clearing its set before iterating — and reset the
iteration counter only if no further update was scheduled during the
drain. -/
def doUpdate (ops : Ops) (s : Sys) : Sys × List (Phase × Nat) :=
  let s0 := { s with timeoutScheduled := false }
  let r1 := runPhase ops .recomp s0
  let r2 := runPhase ops .noti r1.1
  let r3 := runPhase ops .destr r2.1
  let s4 := if r3.1.timeoutScheduled then r3.1 else { r3.1 with updateIteration := 0 }
  (s4, r1.2 ++ r2.2 ++ r3.2)

/-- `vi.runAllTimers()`: fire the scheduled callback repeatedly (at most
`n` times) until the Manager goes idle. -/
def runTimers (ops : Ops) : Nat → Sys → Sys
  | 0, s => s
  | n + 1, s => if s.timeoutScheduled then runTimers ops n (doUpdate ops s).1 else s

/-- `createRoot(schema)`: a fresh system whose arena holds the root entry
(id 0, depth 0) and an idle Manager. -/
def initSys (sch : SchemaK) : Sys where
  entries := [(0, { schema := sch, parent := none, depth := 0, members := [],
                    listeners := [], value := none, previous := none, isComputing := false })]
  nextId := 1
  nextListener := 0
  toRecompute := []
  toNotify := []
  toDestroy := []
  timeoutScheduled := false
  updateIteration := 0
  trace := []

/-- The root entry record of a freshly created system, as `initSys`
stores it. -/
def rootRec (sch : SchemaK) : EntryRec :=
  { schema := sch, parent := none, depth := 0, members := [],
    listeners := [], value := none, previous := none, isComputing := false }

/-! ## The path-patching store of `src/src/core.ts`

`patchStateValue` takes the current (acyclic) state, a dot-separated
selector, and a patch payload, and produces the new state plus a map of
changed paths, throwing on a circular payload.  The payload is an
arbitrary JavaScript object graph — possibly cyclic — so it is modelled
as a heap: `JVal.ref a` points at the object stored at address `a` of an
explicit heap, while the committed state is the acyclic inductive
`SVal`.  The array-specific handling of the source (the extra `length`
key) is not exercised by any claim and plain objects are used throughout;
reference-sharing between the payload and the committed state (the
`current === next` object-identity shortcut) is likewise not
representable here and that comparison is modelled for primitives, where
`===` is value equality. -/

namespace Core

/-- A committed state value: `null`, numbers, strings, and plain objects
as ordered field lists.  Committed states are acyclic by construction. -/
inductive SVal where
  | null
  | num (n : Int)
  | str (s : String)
  | sobj (fields : List (String × SVal))

/-- A patch-payload value: primitives, or a reference into the payload
heap (a JS object, possibly part of a cycle). -/
inductive JVal where
  | undef
  | jnull
  | jnum (n : Int)
  | jstr (s : String)
  | ref (a : Nat)

/-- The payload heap: object address → ordered fields. -/
abbrev Heap := List (Nat × List (String × JVal))

/-- Errors of the patching machinery: the "Circular reference detected at
path …" throw (carrying the path the message names), a dangling payload
reference (impossible for a real JS object graph), and fuel exhaustion of
the embedding. -/
inductive PErr where
  | circular (path : String)
  | dangling
  | outOfFuel
deriving DecidableEq, Repr

/-- The message of the circular-reference error, as thrown by
`patchStateValue`. -/
def PErr.message : PErr → String
  | .circular p => "Circular reference detected at path \x22" ++ p ++ "\x22"
  | .dangling => "dangling reference"
  | .outOfFuel => "out of fuel"

/-- `concatPath`: dot-join two path pieces, ignoring empty ones. -/
def concatP (p k : String) : String :=
  if p = "" then k else if k = "" then p else p ++ "." ++ k

/-- The path separator. -/
def FULLSTOP : Char := Char.ofNat 46

/-- `path.split(".")` over the underlying character list (structural, so
concrete runs evaluate). -/
def splitDots : List Char → List Char → List (List Char)
  | [], acc => [acc.reverse]
  | c :: rest, acc =>
    if c = FULLSTOP then acc.reverse :: splitDots rest []
    else splitDots rest (c :: acc)

/-- `segments`: split a path on dots, ignoring empty segments. -/
def segmentsP (p : String) : List String :=
  ((splitDots p.data []).map fun cs => String.mk cs).filter fun seg => seg ≠ ""

/-- `index`: safe indexing into a state value (`undefined` off objects /
primitives). -/
def sindex (v : Option SVal) (k : String) : Option SVal :=
  match v with
  | some (.sobj fs) => findA k fs
  | _ => none

/-- The `current === next` comparison for the representable cases:
primitive values compare by value (`1 === 1`), and `undefined ===
undefined` when neither side is present. -/
def primEq (c : Option SVal) (j : JVal) : Bool :=
  match c, j with
  | some (.num m), .jnum m' => m = m'
  | some (.str a), .jstr b => a = b
  | some .null, .jnull => true
  | none, .undef => true
  | _, _ => false

/-- Whether a recorded change is the `null` marker (a `null` change
deletes the key from its parent object). -/
def isNullS : SVal → Bool
  | .null => true
  | _ => false

/-- Apply a frame's recorded changes to the old entries of `current`
(the `changesMap` block of `patchStateValue`): `null` deletes the key,
any other value upserts it in place. -/
def applyChanges (old : List (String × SVal)) : List (String × SVal) → List (String × SVal)
  | [] => old
  | (k, v) :: rest =>
    applyChanges (if isNullS v then removeA k old else setA k v old) rest

mutual

/-- One frame of the `patchStateValue` stack machine, as a recursive
function: given the current state subtree, the payload, and the frame's
path, produce `some newValue` (a change, where `null` means "delete this
key at the parent"), or `none` (no change), together with the notify
entries recorded while processing this subtree (children first, then the
frame itself — the order the shared notify map is populated in).  A
payload object already on the current descent path is a cycle:
`Circular reference detected at path "…"`. -/
def patchValue (h : Heap) (fuel : Nat) (seen : List Nat) (current : Option SVal)
    (next : JVal) (path : String) :
    Except PErr (Option SVal × List (String × SVal)) :=
  match fuel with
  | 0 => .error .outOfFuel
  | n + 1 =>
    if primEq current next then .ok (none, [])
    else
      match next with
      | .undef => .ok (none, [])
      | .jnull => .ok (some .null, [(path, .null)])
      | .jnum m => .ok (some (.num m), [(path, .num m)])
      | .jstr t => .ok (some (.str t), [(path, .str t)])
      | .ref a =>
        if a ∈ seen then .error (.circular path)
        else
          match findA a h with
          | none => .error .dangling
          | some fields => do
            let (changes, nts) ← patchFields h n (a :: seen) current fields path
            match changes with
            | [] => .ok (none, nts)
            | _ =>
              let old := match current with | some (.sobj fs) => fs | _ => []
              let merged := SVal.sobj (applyChanges old changes)
              .ok (some merged, nts ++ [(path, merged)])

/-- The key loop of a payload object's frame: process each key in
insertion order, collecting the produced changes and notify entries. -/
def patchFields (h : Heap) (fuel : Nat) (seen : List Nat) (current : Option SVal)
    (fields : List (String × JVal)) (path : String) :
    Except PErr (List (String × SVal) × List (String × SVal)) :=
  match fuel with
  | 0 => .error .outOfFuel
  | n + 1 =>
    match fields with
    | [] => .ok ([], [])
    | (k, jv) :: rest => do
      let (chg, nts) ← patchValue h n seen (sindex current k) jv (concatP path k)
      let (restChanges, restNts) ← patchFields h n seen current rest path
      match chg with
      | none => .ok (restChanges, nts ++ restNts)
      | some v => .ok ((k, v) :: restChanges, nts ++ restNts)

end

/-- The selector-descent frames of `patchStateValue` (the pre-seeded
stack with empty `keys`): descend along the selector segments, then run
the payload frame, then merge each produced change back into its parent
on the way out, recording a notify entry at every changed ancestor path
(the root frame has path `""`). -/
def patchTop (h : Heap) (fuel : Nat) (state : Option SVal) (segs : List String)
    (path : String) (patchJ : JVal) :
    Except PErr (Option SVal × List (String × SVal)) :=
  match segs with
  | [] => patchValue h fuel [] state patchJ path
  | seg :: rest => do
    let (chg, nts) ← patchTop h fuel (sindex state seg) rest (concatP path seg) patchJ
    match chg with
    | none => .ok (none, nts)
    | some v =>
      let old := match state with | some (.sobj fs) => fs | _ => []
      let merged := SVal.sobj (applyChanges old [(seg, v)])
      .ok (some merged, nts ++ [(path, merged)])

/-- `patchStateValue(state, selector, patch, notify)`: returns the new
state (the original state when nothing changed) and the notify entries
in recording order. -/
def patchStateValue (h : Heap) (fuel : Nat) (state : Option SVal) (selector : String)
    (patchJ : JVal) : Except PErr (Option SVal × List (String × SVal)) := do
  let (chg, nts) ← patchTop h fuel state (segmentsP selector) "" patchJ
  match chg with
  | none => .ok (state, nts)
  | some v => .ok (some v, nts)

/-- Insert a notify entry into the shared notify map: `Map.set` keeps the
first insertion position of an existing key and updates its value. -/
def upsertNotify (acc : List (String × SVal)) (entry : String × SVal) :
    List (String × SVal) :=
  setA entry.1 entry.2 acc

/-- `notifyChange`: deliver each recorded change to the listeners of its
path (listeners are modelled as the list of listened-to paths; the
delivered list records `(path, value)` per invoked listener). -/
def deliverNotify (listeners : List String) (acc : List (String × SVal)) :
    List (String × SVal) :=
  acc.filter fun q => q.1 ∈ listeners

/-- `update(store, ...replacements)`: apply each replacement in turn,
*assigning the store's state after each one* (`patchStore` mutates
`storeImpl._state` inside the loop), sharing one notify map; only after
all replacements succeed are listeners notified.  A throw mid-loop
leaves the state as of the last completed replacement and notifies
no-one. -/
def updateGo (h : Heap) (fuel : Nat) (listeners : List String) :
    Option SVal → List (String × SVal) → List (String × JVal) →
    Option SVal × Except PErr Unit × List (String × SVal)
  | s, acc, [] => (s, .ok (), deliverNotify listeners acc)
  | s, acc, (sel, j) :: rest =>
    match patchStateValue h fuel s sel j with
    | .error e => (s, .error e, [])
    | .ok (s', nts) => updateGo h fuel listeners s' (nts.foldl upsertNotify acc) rest

/-- `update(store, ...replacements)` proper: the loop run from the
store's current state with an empty notify map. -/
def updateStore (h : Heap) (fuel : Nat) (state : Option SVal)
    (pairs : List (String × JVal)) (listeners : List String) :
    Option SVal × Except PErr Unit × List (String × SVal) :=
  updateGo h fuel listeners state [] pairs

/-- `patch(store, patchValue)`: a single root-selector patch; the state
is assigned only from the returned value, so a throw leaves it
untouched, and listeners are notified only on success. -/
def patchStore1 (h : Heap) (fuel : Nat) (state : Option SVal) (j : JVal)
    (listeners : List String) :
    Option SVal × Except PErr Unit × List (String × SVal) :=
  match patchStateValue h fuel state "" j with
  | .error e => (state, .error e, [])
  | .ok (s', nts) => (s', .ok (), deliverNotify listeners (nts.foldl upsertNotify []))

end Core

/-! ## Observation helpers, well-formedness, and the concrete configurations
used by the claims -/

/-- The listener invocations recorded in a trace, in order: which
listener fired, with which value and previous value. -/
def traceListeners : List Ev → List (Nat × Val × Option Val)
  | [] => []
  | .listenerE l v p :: rest => (l, v, p) :: traceListeners rest
  | _ :: rest => traceListeners rest

/-- The listener invocations a system has performed so far. -/
def listenerEvents (s : Sys) : List (Nat × Val × Option Val) :=
  traceListeners s.trace

/-- The `compute` invocations recorded in a trace, in order (one entry id
per `schema.compute` call). -/
def traceComputes : List Ev → List Nat
  | [] => []
  | .computeE i :: rest => i :: traceComputes rest
  | _ :: rest => traceComputes rest

/-- The structural shape of an entry — kind, member map, parent — which
invalidation never changes (only values and Manager bookkeeping do). -/
def entShape (s : Sys) (j : Nat) : Option (Kind × List (String × Nat) × Option Nat) :=
  (lookupE s j).map fun e => (kindOfS e.schema, e.members, e.parent)

/-- Whether entry `j` is live with an empty value cache. -/
def valueIsNone (s : Sys) (j : Nat) : Bool :=
  match lookupE s j with
  | some e => e.value.isNone
  | none => false

/-- The cached value of a live entry. -/
def valueOf (s : Sys) (j : Nat) : Option Val :=
  match lookupE s j with
  | some e => e.value
  | none => none

/-- The parent link of a live entry. -/
def parentOf (s : Sys) (j : Nat) : Option Nat :=
  match lookupE s j with
  | some e => e.parent
  | none => none

/-- Bounded ancestor search along parent links. -/
def ancestorB (s : Sys) : Nat → Nat → Nat → Bool
  | 0, _, _ => false
  | k + 1, a, b =>
    match parentOf s b with
    | some p => p = a || ancestorB s k a p
    | none => false

/-- `a` is a proper ancestor of `b` (its parent, grandparent, …).  In a
depth-well-formed state a parent chain strictly decreases in depth, so
`depthOf s b` steps suffice. -/
def isAncestor (s : Sys) (a b : Nat) : Bool :=
  ancestorB s (depthOf s b) a b

/-- Depth well-formedness: every entry with a parent is one level deeper
than its (live) parent — which holds by construction, since `_member`
creates children at `parent._depth + 1`. -/
def wfDepthB (s : Sys) : Bool :=
  s.entries.all fun p =>
    match p.2.parent with
    | some q =>
      match lookupE s q with
      | some pe => p.2.depth = pe.depth + 1
      | none => false
    | none => true

/-- What a (well-typed) `invalidate` call leaves intact: the trace only
grows, and only by `invalidate`-entry ghost marks (in particular no
listener is ever invoked); pending-set membership only grows; and every
entry keeps its shape, while an empty value cache stays empty
(invalidation never computes a value). -/
def invPreserved (s s' : Sys) : Prop :=
  (∃ t, s'.trace = s.trace ++ t ∧ ∀ ev ∈ t, ∃ j, ev = Ev.invalidE j) ∧
  (∀ x, x ∈ s.toRecompute → x ∈ s'.toRecompute) ∧
  (∀ x, x ∈ s.toNotify → x ∈ s'.toNotify) ∧
  (∀ x, x ∈ s.toDestroy → x ∈ s'.toDestroy) ∧
  (∀ j, entShape s' j = entShape s j) ∧
  (∀ j, valueIsNone s j = true → valueIsNone s' j = true) ∧
  (s.toRecompute.Nodup → s'.toRecompute.Nodup) ∧
  (s.toNotify.Nodup → s'.toNotify.Nodup)

/-- The number comparator used by the concrete configurations
(`Object.is` restricted to the numbers they store). -/
def cmpNum : Val → Val → Bool := fun a b =>
  match a, b with
  | .num m, .num n => m == n
  | _, _ => false

/-! ### The `sum = a + b` configuration (claim about derived values)

`object({ a: scalar(3), b: scalar(4), sum: computed(p => p.a + p.b) })`,
driven exactly like the test in `src/unnamed/part_009`. -/

/-- `p => p.a + p.b` of the `sum` computed schema. -/
def sumF : Val → Val := fun pv =>
  match pv with
  | .obj fs =>
    match findA "a" fs, findA "b" fs with
    | some (.num x), some (.num y) => .num (x + y)
    | _, _ => .num 0
  | _ => .num 0

def sumSchema : SchemaK :=
  .objectS [("a", .scalarS (.num 3) cmpNum), ("b", .scalarS (.num 4) cmpNum),
            ("sum", .computedS sumF cmpNum)]

/-- Fuel used by the concrete runs (amply sufficient for trees of depth 1). -/
def fuelN : Nat := 20

def opsN : Ops := engine fuelN

/-- After `root.member("sum")` (the proxy access `entry.sum`): `sum` is
entry 1. -/
def sumS1 : Sys := (memberC 0 "sum" (initSys sumSchema)).2

/-- After the first `entry.sum.get()`. -/
def sumS2 : Sys := (opsN.get 1 MEMBERS_DEFAULT sumS1).2

/-- After `entry.a.set(5)` (`a` is entry 2) and draining. -/
def sumS3 : Sys :=
  runTimers opsN 5 (opsN.setC 2 (.num 5) (memberC 0 "a" sumS2).2).2

def sumS4 : Sys := (opsN.get 1 MEMBERS_DEFAULT sumS3).2

/-- After `entry.b.set(2)` (`b` is entry 3) and draining. -/
def sumS5 : Sys :=
  runTimers opsN 5 (opsN.setC 3 (.num 2) (memberC 0 "b" sumS4).2).2

def sumS6 : Sys := (opsN.get 1 MEMBERS_DEFAULT sumS5).2

/-- After the rejected direct write `entry.sum.set(10)` and draining. -/
def sumS7 : Sys := runTimers opsN 5 (opsN.setC 1 (.num 10) sumS6).2

/-! ### The subscribed root scalar (notification claim) -/

/-- A root scalar entry with one subscribed listener (listener id 0). -/
def nfy0 (d : Val) (cmp : Val → Val → Bool) : Sys :=
  (subscribeC 0 (initSys (.scalarS d cmp))).2

/-- … after `set(v₁)` and draining. -/
def nfy1 (d : Val) (cmp : Val → Val → Bool) (v₁ : Val) : Sys :=
  runTimers opsN 4 (opsN.setC 0 v₁ (nfy0 d cmp)).2

/-- … after a further `set(v₂)` (not yet drained). -/
def nfy2a (d : Val) (cmp : Val → Val → Bool) (v₁ v₂ : Val) : Sys :=
  (opsN.setC 0 v₂ (nfy1 d cmp v₁)).2

/-- … after draining that write. -/
def nfy2 (d : Val) (cmp : Val → Val → Bool) (v₁ v₂ : Val) : Sys :=
  runTimers opsN 4 (nfy2a d cmp v₁ v₂)

/-- … after repeating the identical `set(v₂)` and draining. -/
def nfy3 (d : Val) (cmp : Val → Val → Bool) (v₁ v₂ : Val) : Sys :=
  runTimers opsN 4 (opsN.setC 0 v₂ (nfy2 d cmp v₁ v₂)).2

/-! ### The `map(scalar(d))` garbage-collection run -/

/-- `createRoot(map(scalar(d)))` followed by `root.member(k)`: the member
is entry 1. -/
def gc0 (d : Val) (cmp : Val → Val → Bool) (k : String) : Sys :=
  (memberC 0 k (initSys (.mapS (.scalarS d cmp)))).2

/-- … after `member.set(v)` and draining. -/
def gc1 (d : Val) (cmp : Val → Val → Bool) (k : String) (v : Val) : Sys :=
  runTimers opsN 5 (opsN.setC 1 v (gc0 d cmp k)).2

/-- … after `member.unset()` and draining (the GC pass). -/
def gc2 (d : Val) (cmp : Val → Val → Bool) (k : String) (v : Val) : Sys :=
  runTimers opsN 5 (opsN.unsetC 1 (gc1 d cmp k v)).2

/-! ### The `object({ x: scalar(0) })` configuration (invalidation
dispatch counterexample) -/

/-- Root `object({ x: scalar(0) })` with `x` instantiated as entry 1. -/
def invCfg : Sys := (memberC 0 "x" (initSys (.objectS [("x", .scalarS (.num 0) cmpNum)]))).2

/-- … after a first `x.invalidate()`. -/
def invOnce : Sys := (opsN.invalidateC 1 invCfg).2

/-- … after `root.get()` has repopulated the root's cached aggregate. -/
def invCached : Sys := (opsN.get 0 MEMBERS_DEFAULT invOnce).2

/-- … after a second `x.invalidate()`, with `x` already in both pending
sets. -/
def invTwice : Sys := (opsN.invalidateC 1 invCached).2

/-- The same two-entry shape driven through the `extend.ts` engine. -/
def invXOnce : Sys := (opsN.invalidateX 1 invCfg).2

def invXCached : Sys := (opsN.get 0 MEMBERS_DEFAULT invXOnce).2

def invXTwice : Sys := (opsN.invalidateX 1 invXCached).2

/-- The concrete record of the scalar member entry `x` (entry 1) as it
sits in `invCfg` and `invXOnce`. -/
def xEntryRec : EntryRec :=
  { schema := .scalarS (.num 0) cmpNum, parent := some 0, depth := 1,
    members := [], listeners := [], value := none, previous := none,
    isComputing := false }

/-! ### Small states for the guard, get and ordering claims -/

/-- A fresh root scalar whose Manager has already been through three
non-idle schedule/drain rounds (`_updateIteration = 3`) and is idle. -/
def guardSys : Sys := { initSys (.scalarS (.num 0) cmpNum) with updateIteration := 3 }

/-- A root scalar mid-computation (`_isComputing` held), as `get()` would
see itself on re-entry. -/
def reentrSys : Sys :=
  updEntry 0 (fun e => { e with isComputing := true }) (initSys (.scalarS (.num 0) cmpNum))

/-- A parent/child pair (root object with its scalar member) with both
entries pending in the notify set — scheduled child-first. -/
def ordSys : Sys :=
  { invCfg with toNotify := [1, 0], timeoutScheduled := true }

/-! ### Explicit forms of the states the notification and GC runs reach
(each is proved equal to the corresponding run below; spelling them out
keeps the symbolic executions cheap) -/

/-- The subscribed root scalar before any write (listener id 0). -/
def nfy0State (d : Val) (cmp : Val → Val → Bool) : Sys where
  entries := [(0, { schema := .scalarS d cmp, parent := none, depth := 0, members := [],
                    listeners := [0], value := none, previous := none, isComputing := false })]
  nextId := 1
  nextListener := 1
  toRecompute := []
  toNotify := []
  toDestroy := []
  timeoutScheduled := false
  updateIteration := 0
  trace := []

/-- … right after `set(v₁)`, before the drain. -/
def nfy1aState (d : Val) (cmp : Val → Val → Bool) (v₁ : Val) : Sys where
  entries := [(0, { schema := .scalarS d cmp, parent := none, depth := 0, members := [],
                    listeners := [0], value := some v₁, previous := none, isComputing := false })]
  nextId := 1
  nextListener := 1
  toRecompute := [0]
  toNotify := [0]
  toDestroy := []
  timeoutScheduled := true
  updateIteration := 1
  trace := [.invalidE 0]

/-- The subscribed root scalar after `set(v₁)` has drained. -/
def nfy1State (d : Val) (cmp : Val → Val → Bool) (v₁ : Val) : Sys where
  entries := [(0, { schema := .scalarS d cmp, parent := none, depth := 0, members := [],
                    listeners := [0], value := some v₁, previous := some v₁,
                    isComputing := false })]
  nextId := 1
  nextListener := 1
  toRecompute := []
  toNotify := []
  toDestroy := []
  timeoutScheduled := false
  updateIteration := 0
  trace := [.invalidE 0, .computeE 0, .listenerE 0 v₁ none]

/-- … right after the second `set(v₂)`, before the drain: the entry is
pending in both sets and a callback is scheduled, but no listener ran. -/
def nfy2aState (d : Val) (cmp : Val → Val → Bool) (v₁ v₂ : Val) : Sys where
  entries := [(0, { schema := .scalarS d cmp, parent := none, depth := 0, members := [],
                    listeners := [0], value := some v₂, previous := some v₁,
                    isComputing := false })]
  nextId := 1
  nextListener := 1
  toRecompute := [0]
  toNotify := [0]
  toDestroy := []
  timeoutScheduled := true
  updateIteration := 1
  trace := [.invalidE 0, .computeE 0, .listenerE 0 v₁ none, .invalidE 0]

/-- … after that write has drained: exactly one further listener
invocation, carrying `(v₂, v₁)`. -/
def nfy2State (d : Val) (cmp : Val → Val → Bool) (v₁ v₂ : Val) : Sys where
  entries := [(0, { schema := .scalarS d cmp, parent := none, depth := 0, members := [],
                    listeners := [0], value := some v₂, previous := some v₂,
                    isComputing := false })]
  nextId := 1
  nextListener := 1
  toRecompute := []
  toNotify := []
  toDestroy := []
  timeoutScheduled := false
  updateIteration := 0
  trace := [.invalidE 0, .computeE 0, .listenerE 0 v₁ none,
            .invalidE 0, .computeE 0, .listenerE 0 v₂ (some v₁)]

/-- The `map(scalar(d))` root with its member `k` instantiated (entry 1). -/
def gc0State (d : Val) (cmp : Val → Val → Bool) (k : String) : Sys where
  entries := [(0, { schema := .mapS (.scalarS d cmp), parent := none, depth := 0,
                    members := [(k, 1)], listeners := [], value := none, previous := none,
                    isComputing := false }),
              (1, { schema := .scalarS d cmp, parent := some 0, depth := 1, members := [],
                    listeners := [], value := none, previous := none, isComputing := false })]
  nextId := 2
  nextListener := 0
  toRecompute := []
  toNotify := []
  toDestroy := []
  timeoutScheduled := false
  updateIteration := 0
  trace := []

/-- The `map(scalar(d))` configuration right after `member.set(v)`,
before the drain. -/
def gc1aState (d : Val) (cmp : Val → Val → Bool) (k : String) (v : Val) : Sys where
  entries := [(0, { schema := .mapS (.scalarS d cmp), parent := none, depth := 0,
                    members := [(k, 1)], listeners := [], value := none, previous := none,
                    isComputing := false }),
              (1, { schema := .scalarS d cmp, parent := some 0, depth := 1, members := [],
                    listeners := [], value := some v, previous := none, isComputing := false })]
  nextId := 2
  nextListener := 0
  toRecompute := [1]
  toNotify := [0, 1]
  toDestroy := []
  timeoutScheduled := true
  updateIteration := 1
  trace := [.invalidE 1, .invalidE 0]

/-- … after `member.set(v)` has drained: the member holds `v` and the
root's aggregate is `Map { k → v }`. -/
def gc1State (d : Val) (cmp : Val → Val → Bool) (k : String) (v : Val) : Sys where
  entries := [(0, { schema := .mapS (.scalarS d cmp), parent := none, depth := 0,
                    members := [(k, 1)], listeners := [], value := some (.vmap [(k, v)]),
                    previous := some (.vmap [(k, v)]), isComputing := false }),
              (1, { schema := .scalarS d cmp, parent := some 0, depth := 1, members := [],
                    listeners := [], value := some v, previous := some v,
                    isComputing := false })]
  nextId := 2
  nextListener := 0
  toRecompute := []
  toNotify := []
  toDestroy := []
  timeoutScheduled := false
  updateIteration := 0
  trace := [.invalidE 1, .invalidE 0, .computeE 1, .computeE 0]

/-- … right after `member.unset()` (which is `member.set(d)`), before the
drain: the member has become empty and is pending destruction. -/
def gc2aState (d : Val) (cmp : Val → Val → Bool) (k : String) (v : Val) : Sys where
  entries := [(0, { schema := .mapS (.scalarS d cmp), parent := none, depth := 0,
                    members := [(k, 1)], listeners := [], value := none,
                    previous := some (.vmap [(k, v)]), isComputing := false }),
              (1, { schema := .scalarS d cmp, parent := some 0, depth := 1, members := [],
                    listeners := [], value := some d, previous := some v,
                    isComputing := false })]
  nextId := 2
  nextListener := 0
  toRecompute := [1]
  toNotify := [0, 1]
  toDestroy := [1]
  timeoutScheduled := true
  updateIteration := 1
  trace := [.invalidE 1, .invalidE 0, .computeE 1, .computeE 0, .invalidE 1, .invalidE 0]

/-- … after `member.unset()` has drained: the GC pass removed entry 1
from the parent's member cache and destroyed it (dropped it from the
arena), and the root's aggregate is empty again. -/
def gc2State (d : Val) (cmp : Val → Val → Bool) (_k : String) (_v : Val) : Sys where
  entries := [(0, { schema := .mapS (.scalarS d cmp), parent := none, depth := 0,
                    members := [], listeners := [], value := some (.vmap []),
                    previous := some (.vmap []), isComputing := false })]
  nextId := 2
  nextListener := 0
  toRecompute := []
  toNotify := []
  toDestroy := []
  timeoutScheduled := false
  updateIteration := 0
  trace := [.invalidE 1, .invalidE 0, .computeE 1, .computeE 0,
            .invalidE 1, .invalidE 0, .computeE 1, .computeE 0]

/-- A fresh common-engine root scalar right after `set(5)` (nothing
drained; `scalarS`'s `change` performs no invalidation). -/
def setCE : Sys := (opsN.setC 0 (.num 5) (initSys (.scalarS (.num 0) cmpNum))).2

/-! ## Basic lemmas about the embedding's plumbing -/

@[simp] theorem bindR_ok {α β : Type} (a : α) (s : Sys) (f : α → Sys → Res β) :
    bindR (.ok a, s) f = f a s := rfl

@[simp] theorem bindR_error {α β : Type} (e : Err) (s : Sys) (f : α → Sys → Res β) :
    bindR (.error e, s) f = (.error e, s) := rfl

@[simp] theorem addEv_toRecompute (e : Ev) (s : Sys) : (addEv e s).toRecompute = s.toRecompute := rfl

@[simp] theorem addEv_toNotify (e : Ev) (s : Sys) : (addEv e s).toNotify = s.toNotify := rfl

@[simp] theorem addEv_toDestroy (e : Ev) (s : Sys) : (addEv e s).toDestroy = s.toDestroy := rfl

@[simp] theorem addEv_entries (e : Ev) (s : Sys) : (addEv e s).entries = s.entries := rfl

@[simp] theorem addEv_trace (e : Ev) (s : Sys) : (addEv e s).trace = s.trace ++ [e] := rfl

@[simp] theorem addEv_timeout (e : Ev) (s : Sys) :
    (addEv e s).timeoutScheduled = s.timeoutScheduled := rfl

@[simp] theorem addEv_iteration (e : Ev) (s : Sys) :
    (addEv e s).updateIteration = s.updateIteration := rfl

@[simp] theorem updEntry_toRecompute (id : Nat) (f : EntryRec → EntryRec) (s : Sys) :
    (updEntry id f s).toRecompute = s.toRecompute := rfl

@[simp] theorem updEntry_toNotify (id : Nat) (f : EntryRec → EntryRec) (s : Sys) :
    (updEntry id f s).toNotify = s.toNotify := rfl

@[simp] theorem updEntry_toDestroy (id : Nat) (f : EntryRec → EntryRec) (s : Sys) :
    (updEntry id f s).toDestroy = s.toDestroy := rfl

@[simp] theorem updEntry_trace (id : Nat) (f : EntryRec → EntryRec) (s : Sys) :
    (updEntry id f s).trace = s.trace := rfl

@[simp] theorem updEntry_timeout (id : Nat) (f : EntryRec → EntryRec) (s : Sys) :
    (updEntry id f s).timeoutScheduled = s.timeoutScheduled := rfl

theorem findA_updEntries (id : Nat) (f : EntryRec → EntryRec) :
    ∀ (l : List (Nat × EntryRec)) (j : Nat),
      findA j (updEntries id f l) = if j = id then (findA j l).map f else findA j l := by
  intro l
  induction l with
  | nil => intro j; by_cases hj : j = id <;> simp [findA, updEntries, hj]
  | cons p rest ih =>
    intro j
    obtain ⟨k, e⟩ := p
    by_cases hk : k = id
    · subst hk
      by_cases hj : j = k <;> simp [findA, updEntries, hj, ih]
    · by_cases hj : j = k
      · subst hj
        simp [findA, updEntries, hk, ih]
      · simp [findA, updEntries, hk, hj, ih]

theorem lookupE_updEntry (id j : Nat) (f : EntryRec → EntryRec) (s : Sys) :
    lookupE (updEntry id f s) j = if j = id then (lookupE s j).map f else lookupE s j := by
  unfold lookupE updEntry
  exact findA_updEntries id f s.entries j

@[simp] theorem lookupE_updEntry_self (id : Nat) (f : EntryRec → EntryRec) (s : Sys) :
    lookupE (updEntry id f s) id = (lookupE s id).map f := by
  simp [lookupE_updEntry]

theorem lookupE_updEntry_other {id j : Nat} (h : j ≠ id) (f : EntryRec → EntryRec) (s : Sys) :
    lookupE (updEntry id f s) j = lookupE s j := by
  simp [lookupE_updEntry, h]

/-- `engine` unrolls one level at a time. -/
theorem engine_succ (n : Nat) : engine (n + 1) = mkOps (engine n) := rfl

/-! ## Claim C7 — derived (Narrowing) values track the parent -/

/-- C7: for the configuration `object({a: scalar(3), b: scalar(4),
sum: computed(p => p.a + p.b)})` of the common-engine era, `sum.get()` is
7 initially; after `a.set(5)` and a drain it is 9; after `b.set(2)` and a
drain it is 7 again; and a direct write `sum.set(10)` is rejected —
`computed`'s `change` returns the keep sentinel for every write — so
`sum.get()` is still 7 after draining.  Each step drains exactly as the
Manager schedules it, and the derived value is updated exactly when the
comparator reports a difference between the old and newly computed
values (the recompute suppresses the update otherwise). -/
theorem claim_C7 :
    (opsN.get 1 MEMBERS_DEFAULT sumS1).1 = .ok (.num 7) ∧
    (opsN.get 1 MEMBERS_DEFAULT sumS3).1 = .ok (.num 9) ∧
    (opsN.get 1 MEMBERS_DEFAULT sumS5).1 = .ok (.num 7) ∧
    (∀ (n : Nat) (v : Val) (p : Option Val) (s : Sys),
      (engine (n + 1)).changeC 1 (.computedS sumF cmpNum) v p s = (.ok none, s)) ∧
    (opsN.get 1 MEMBERS_DEFAULT sumS7).1 = .ok (.num 7) := by
  refine ⟨rfl, rfl, rfl, fun n v p s => rfl, rfl⟩

/-! ## Claim C6 — scalar notification is batched and equality-suppressed

Stage equalities for the subscribed-root-scalar run; from each explicit
state the next step is a short symbolic execution. -/

theorem nfy0_eq (d : Val) (cmp : Val → Val → Bool) : nfy0 d cmp = nfy0State d cmp := rfl

theorem nfySet1 (d : Val) (cmp : Val → Val → Bool) (v₁ : Val) :
    opsN.setC 0 v₁ (nfy0State d cmp) = (.ok (), nfy1aState d cmp v₁) := rfl

theorem nfyDrain1 (d : Val) (cmp : Val → Val → Bool) (v₁ : Val) :
    runTimers opsN 4 (nfy1aState d cmp v₁) = nfy1State d cmp v₁ := rfl

theorem nfy1_eq (d : Val) (cmp : Val → Val → Bool) (v₁ : Val) :
    nfy1 d cmp v₁ = nfy1State d cmp v₁ := by
  unfold nfy1
  rw [nfy0_eq, nfySet1]
  exact nfyDrain1 d cmp v₁

theorem nfySet2 (d : Val) (cmp : Val → Val → Bool) (v₁ v₂ : Val) (h2 : cmp v₂ v₁ = false) :
    opsN.setC 0 v₂ (nfy1State d cmp v₁) = (.ok (), nfy2aState d cmp v₁ v₂) := by
  simp [opsN, fuelN, engine, mkOps, setCBody, changeCBody, invalidateCBody, checkDeleteBody,
    isEmptyBody, hasValueBody, scheduleRecomputeM, scheduleNotifyM, scheduleDestroyM,
    scheduleUpdateM, updateIterationMax, kindOfS, addEv, updEntry, updEntries, lookupE, findA,
    invalidateList, invalidateNarrowList, nfy1State, nfy2aState, h2, bindR]

theorem nfy2a_eq (d : Val) (cmp : Val → Val → Bool) (v₁ v₂ : Val) (h2 : cmp v₂ v₁ = false) :
    nfy2a d cmp v₁ v₂ = nfy2aState d cmp v₁ v₂ := by
  unfold nfy2a
  rw [nfy1_eq, nfySet2 d cmp v₁ v₂ h2]

theorem nfyDrain2 (d : Val) (cmp : Val → Val → Bool) (v₁ v₂ : Val) :
    runTimers opsN 4 (nfy2aState d cmp v₁ v₂) = nfy2State d cmp v₁ v₂ := rfl

theorem nfy2_eq (d : Val) (cmp : Val → Val → Bool) (v₁ v₂ : Val) (h2 : cmp v₂ v₁ = false) :
    nfy2 d cmp v₁ v₂ = nfy2State d cmp v₁ v₂ := by
  unfold nfy2
  rw [nfy2a_eq d cmp v₁ v₂ h2]
  exact nfyDrain2 d cmp v₁ v₂

theorem nfySet3 (d : Val) (cmp : Val → Val → Bool) (v₁ v₂ : Val) (h3 : cmp v₂ v₂ = true) :
    opsN.setC 0 v₂ (nfy2State d cmp v₁ v₂) = (.ok (), nfy2State d cmp v₁ v₂) := by
  simp [opsN, fuelN, engine, mkOps, setCBody, changeCBody, nfy2State, lookupE, findA, h3, bindR]

/-- C6: on a subscribed scalar entry (root scalar, listener 0), a write
followed by a drain produces exactly one listener invocation, carrying
the written value and the value previous to that batch (the unset
sentinel for the first-ever notification); the write itself invokes no
listener synchronously (the pending write `nfy2a` has the same listener
record as before); a second `set` with a value the comparator deems equal
to the previous one is rejected by `scalar`'s `change` (keep sentinel),
so the whole system state — listener record included — is unchanged. -/
theorem claim_C6 (d v₁ v₂ : Val) (cmp : Val → Val → Bool)
    (h2 : cmp v₂ v₁ = false) (h3 : cmp v₂ v₂ = true) :
    listenerEvents (nfy1 d cmp v₁) = [(0, v₁, none)] ∧
    listenerEvents (nfy2a d cmp v₁ v₂) = [(0, v₁, none)] ∧
    listenerEvents (nfy2 d cmp v₁ v₂) = [(0, v₁, none), (0, v₂, some v₁)] ∧
    nfy3 d cmp v₁ v₂ = nfy2 d cmp v₁ v₂ := by
  refine ⟨?_, ?_, ?_, ?_⟩
  · rw [nfy1_eq]; rfl
  · rw [nfy2a_eq d cmp v₁ v₂ h2]; rfl
  · rw [nfy2_eq d cmp v₁ v₂ h2]; rfl
  · unfold nfy3
    rw [nfy2_eq d cmp v₁ v₂ h2, nfySet3 d cmp v₁ v₂ h3]
    rfl

/-- C6 witness: the integer instance `d = 0`, `v₁ = 5`, `v₂ = 7` with the
`Object.is` comparator. -/
theorem claim_C6_witness :
    cmpNum (.num 7) (.num 5) = false ∧ cmpNum (.num 7) (.num 7) = true ∧
    listenerEvents (nfy2 (.num 0) cmpNum (.num 5) (.num 7)) =
      [(0, .num 5, none), (0, .num 7, some (.num 5))] :=
  ⟨rfl, rfl, (claim_C6 (.num 0) (.num 5) (.num 7) cmpNum rfl rfl).2.2.1⟩

/-! ## Claim C8 — garbage collection of an unset member -/

theorem gc0_eq (d : Val) (cmp : Val → Val → Bool) (k : String) :
    gc0 d cmp k = gc0State d cmp k := rfl

theorem gcSet (d : Val) (cmp : Val → Val → Bool) (k : String) (v : Val)
    (hvd : cmp v d = false) :
    opsN.setC 1 v (gc0State d cmp k) = (.ok (), gc1aState d cmp k v) := by
  simp [opsN, fuelN, engine, mkOps, setCBody, changeCBody, invalidateCBody, checkDeleteBody,
    isEmptyBody, hasValueBody, anyHasValueFold, scheduleRecomputeM, scheduleNotifyM,
    scheduleDestroyM, scheduleUpdateM, updateIterationMax, kindOfS, kindOfE, addEv, updEntry,
    updEntries, lookupE, findA, invalidateList, invalidateNarrowList, gc0State, gc1aState,
    hvd, bindR]

theorem gcDrain1 (d : Val) (cmp : Val → Val → Bool) (k : String) (v : Val)
    (hvd : cmp v d = false) :
    runTimers opsN 5 (gc1aState d cmp k v) = gc1State d cmp k v := by
  simp [runTimers, doUpdate, runPhase, runEntries, phaseStep, phasePending, clearPending,
    sortByDepth, depthOf, opsN, fuelN, engine, mkOps, recomputeBody, notifyBody, getBody,
    computeBody, computeMapFold, hasValueBody, anyHasValueFold, fireListeners, kindOfS, kindOfE,
    addEv, updEntry, updEntries, lookupE, findA, scheduleNotifyM, scheduleUpdateM,
    MEMBERS_DEFAULT, gc1aState, gc1State, hvd, bindR, List.insertionSort, List.orderedInsert]

theorem gc1_eq (d : Val) (cmp : Val → Val → Bool) (k : String) (v : Val)
    (hvd : cmp v d = false) :
    gc1 d cmp k v = gc1State d cmp k v := by
  unfold gc1
  rw [gc0_eq, gcSet d cmp k v hvd]
  exact gcDrain1 d cmp k v hvd

theorem gcUnset (d : Val) (cmp : Val → Val → Bool) (k : String) (v : Val)
    (hdv : cmp d v = false) (hdd : cmp d d = true) :
    opsN.unsetC 1 (gc1State d cmp k v) = (.ok (), gc2aState d cmp k v) := by
  simp [opsN, fuelN, engine, mkOps, unsetCBody, setCBody, changeCBody, invalidateCBody,
    checkDeleteBody, isEmptyBody, hasValueBody, anyHasValueFold, scheduleRecomputeM,
    scheduleNotifyM, scheduleDestroyM, scheduleUpdateM, updateIterationMax, kindOfS, kindOfE,
    addEv, updEntry, updEntries, lookupE, findA, invalidateList, invalidateNarrowList,
    gc1State, gc2aState, hdv, hdd, bindR]

theorem gcDrain2 (d : Val) (cmp : Val → Val → Bool) (k : String) (v : Val)
    (hdd : cmp d d = true) :
    runTimers opsN 5 (gc2aState d cmp k v) = gc2State d cmp k v := by
  simp [runTimers, doUpdate, runPhase, runEntries, phaseStep, phasePending, clearPending,
    sortByDepth, depthOf, opsN, fuelN, engine, mkOps, recomputeBody, notifyBody, getBody,
    computeBody, computeMapFold, gcBody, gcSweepFold, isMemberPermanentS, isEmptyBody,
    hasValueBody, anyHasValueFold, fireListeners, kindOfS, kindOfE, addEv, updEntry, updEntries,
    lookupE, findA, removeA, scheduleNotifyM, scheduleUpdateM, MEMBERS_DEFAULT, gc2aState,
    gc2State, hdd, bindR, List.insertionSort, List.orderedInsert, List.filter]

theorem gc2_eq (d : Val) (cmp : Val → Val → Bool) (k : String) (v : Val)
    (hvd : cmp v d = false) (hdv : cmp d v = false) (hdd : cmp d d = true) :
    gc2 d cmp k v = gc2State d cmp k v := by
  unfold gc2
  rw [gc1_eq d cmp k v hvd, gcUnset d cmp k v hdv hdd]
  exact gcDrain2 d cmp k v hdd

/-- C8: for a member entry of a `map` schema (which does not mark members
permanent), after the entry is emptied by `unset()` and the scheduler
drains, the GC pass removes it from the parent's member cache and the
arena, so: `member(k)` before the unset still returns the same entry
(id 1); after the drain `member(k)` creates and returns a different
entry (id 2); the destroyed entry is gone from the arena while the
parent's member cache is empty; and any further `get` or `set` through
the old reference fails with the destroyed-entry error. -/
theorem claim_C8 (d v : Val) (k : String) (cmp : Val → Val → Bool)
    (hvd : cmp v d = false) (hdv : cmp d v = false) (hdd : cmp d d = true) :
    (memberC 0 k (gc1 d cmp k v)).1 = .ok 1 ∧
    (memberC 0 k (gc2 d cmp k v)).1 = .ok 2 ∧
    lookupE (gc2 d cmp k v) 1 = none ∧
    entShape (gc2 d cmp k v) 0 = some (.widening, [], none) ∧
    (∀ (m : Nat) (flags : MembersFlags),
      ((engine (m + 1)).get 1 flags (gc2 d cmp k v)).1 = .error .destroyed) ∧
    (∀ (m : Nat) (w : Val),
      ((engine (m + 1)).setC 1 w (gc2 d cmp k v)).1 = .error .destroyed) := by
  have h1 := gc1_eq d cmp k v hvd
  have h2 := gc2_eq d cmp k v hvd hdv hdd
  refine ⟨?_, ?_, ?_, ?_, ?_, ?_⟩
  · rw [h1]; simp [memberC, lookupE, findA, gc1State]
  · rw [h2]; simp [memberC, lookupE, findA, getMemberS, gc2State]
  · rw [h2]; rfl
  · rw [h2]; rfl
  · intro m flags
    rw [h2]
    simp [engine, mkOps, getBody, lookupE, findA, gc2State]
  · intro m w
    rw [h2]
    simp [engine, mkOps, setCBody, lookupE, findA, gc2State]

/-! ## Claim C1 — the shape of `invalidate`'s dispatch

The claim describes `extend.ts`'s `invalidate` exactly, but the
`common.ts` variant it also cites deviates: there the recompute branch
runs for every non-Widening kind (a Scalar entry is scheduled for
recompute too), and propagation to the parent happens on *every*
invalidate of a non-Narrowing entry, not only on the batch's first notify
request.  The counterexample exhibits both deviations on
`object({x: scalar(0)})`: invalidating the scalar member puts it in the
pending recompute set, and a second invalidate — with the member already
in both pending sets — still reaches the parent and discards its
repopulated cached aggregate. -/

/-- C1 counterexample (common.ts engine): `x` is a Scalar entry, yet its
first `invalidate()` schedules it for recompute; and after `root.get()`
has repopulated the root's cache, a second `x.invalidate()` — `x` already
being in both pending sets — still propagates to the parent and discards
that cache, although the claim allows propagation only on the first
request of the batch. -/
theorem claim_C1_counterexample :
    kindOfE invCfg 1 = some .scalar ∧
    invOnce.toRecompute = [1] ∧
    (1 ∈ invOnce.toNotify ∧ 1 ∈ invOnce.toRecompute) ∧
    valueIsNone invCached 0 = false ∧
    (opsN.invalidateC 1 invCached).1 = .ok () ∧
    valueIsNone invTwice 0 = true := by
  refine ⟨by decide, by decide, ⟨by decide, by decide⟩, by decide, rfl, by decide⟩

/-! ## Claim C2 — `set` and invalidation

`extend.ts`'s `set` performs no invalidation (propagation only through
the schema's `change` calling `invalidate`, as `src/lib/scalar.ts` does);
but the also-cited `common.ts` `_set` invalidates itself after an
accepted change — its era's scalar `change` accordingly does not. -/

/-- C2 counterexample (common.ts engine): a fresh root scalar after
`set(5)`.  The era's scalar `change` leaves the state alone (first
conjunct: it returns the accepted value without touching the system),
yet after `set` the entry sits in both the pending notify and the pending
recompute sets — `_set` itself invalidated. -/
theorem claim_C2_counterexample :
    (∀ (n : Nat) (id : Nat) (v p : Val) (s : Sys),
      ((engine (n + 1)).changeC id (.scalarS (.num 0) cmpNum) v (some p) s).2 = s) ∧
    setCE.toNotify = [0] ∧
    setCE.toRecompute = [0] := by
  refine ⟨?_, by decide, by decide⟩
  intro n id v p s
  show (changeCBody (engine n) id (.scalarS (.num 0) cmpNum) v (some p) s).2 = s
  simp only [changeCBody]
  split <;> rfl

/-! ### Frame properties of `extend.ts`'s `invalidate` -/

theorem invPreserved_refl (s : Sys) : invPreserved s s :=
  ⟨⟨[], by simp, by simp⟩, fun _ h => h, fun _ h => h, fun _ h => h,
    fun _ => rfl, fun _ h => h, fun h => h, fun h => h⟩

theorem invPreserved_trans {s₁ s₂ s₃ : Sys}
    (h₁ : invPreserved s₁ s₂) (h₂ : invPreserved s₂ s₃) : invPreserved s₁ s₃ := by
  obtain ⟨⟨t₁, ht₁, he₁⟩, r₁, n₁, d₁, sh₁, v₁, nr₁, nn₁⟩ := h₁
  obtain ⟨⟨t₂, ht₂, he₂⟩, r₂, n₂, d₂, sh₂, v₂, nr₂, nn₂⟩ := h₂
  refine ⟨⟨t₁ ++ t₂, by simp [ht₂, ht₁], ?_⟩, fun x hx => r₂ x (r₁ x hx),
    fun x hx => n₂ x (n₁ x hx), fun x hx => d₂ x (d₁ x hx),
    fun j => (sh₂ j).trans (sh₁ j), fun j hj => v₂ j (v₁ j hj),
    fun h => nr₂ (nr₁ h), fun h => nn₂ (nn₁ h)⟩
  intro ev hev
  rcases List.mem_append.mp hev with h | h
  · exact he₁ ev h
  · exact he₂ ev h

theorem entShape_updValue (id : Nat) (w : Option Val) (s : Sys) (j : Nat) :
    entShape (updEntry id (fun e => { e with value := w }) s) j = entShape s j := by
  unfold entShape
  rw [lookupE_updEntry]
  by_cases hj : j = id <;> simp [hj] <;> cases lookupE s j <;> rfl

theorem invPreserved_addEvInval (j : Nat) (s : Sys) :
    invPreserved s (addEv (.invalidE j) s) :=
  ⟨⟨[.invalidE j], rfl, by simp⟩, fun _ h => h, fun _ h => h, fun _ h => h,
    fun _ => rfl, fun _ h => h, fun h => h, fun h => h⟩

theorem invPreserved_updValueNone (id : Nat) (s : Sys) :
    invPreserved s (updEntry id (fun e => { e with value := none }) s) := by
  refine ⟨⟨[], by simp, by simp⟩, fun _ h => h, fun _ h => h, fun _ h => h,
    fun j => entShape_updValue id none s j, ?_, fun h => h, fun h => h⟩
  intro j hj
  unfold valueIsNone at hj ⊢
  rw [lookupE_updEntry]
  by_cases hji : j = id
  · subst hji
    cases h : lookupE s j with
    | none => rw [h] at hj; exact absurd hj (by simp)
    | some e => simp
  · simp only [hji, if_false]
    exact hj

theorem invPreserved_of_same_entries {s s' : Sys}
    (hen : s'.entries = s.entries) (htr : s'.trace = s.trace)
    (hR : ∀ x ∈ s.toRecompute, x ∈ s'.toRecompute)
    (hN : ∀ x ∈ s.toNotify, x ∈ s'.toNotify)
    (hD : ∀ x ∈ s.toDestroy, x ∈ s'.toDestroy)
    (hnr : s.toRecompute.Nodup → s'.toRecompute.Nodup)
    (hnn : s.toNotify.Nodup → s'.toNotify.Nodup) : invPreserved s s' := by
  refine ⟨⟨[], by simp [htr], by simp⟩, hR, hN, hD, ?_, ?_, hnr, hnn⟩
  · intro j; unfold entShape lookupE; rw [hen]
  · intro j hj; unfold valueIsNone lookupE at hj ⊢; rw [hen]; exact hj

theorem nodup_append_singleton {l : List Nat} {x : Nat} (h : l.Nodup) (hx : x ∉ l) :
    (l ++ [x]).Nodup := by
  simp [List.nodup_append, h, hx, List.disjoint_singleton]

theorem scheduleUpdateM_pres (s : Sys) : invPreserved s (scheduleUpdateM s).2 := by
  unfold scheduleUpdateM
  split
  · exact invPreserved_refl s
  · split <;>
      exact invPreserved_of_same_entries rfl rfl (fun _ h => h) (fun _ h => h) (fun _ h => h)
        (fun h => h) (fun h => h)

theorem scheduleRecomputeM_pres (id : Nat) (s : Sys) :
    invPreserved s (scheduleRecomputeM id s).2 := by
  unfold scheduleRecomputeM
  split
  · exact invPreserved_refl s
  · rename_i hmem
    have base : invPreserved s { s with toRecompute := s.toRecompute ++ [id] } := by
      refine invPreserved_of_same_entries rfl rfl ?_ (fun x h => h) (fun x h => h) ?_ (fun h => h)
      · intro x hx; exact List.mem_append.mpr (Or.inl hx)
      · intro h; exact nodup_append_singleton h hmem
    have step := scheduleUpdateM_pres { s with toRecompute := s.toRecompute ++ [id] }
    have tot := invPreserved_trans base step
    rcases hsu : scheduleUpdateM { s with toRecompute := s.toRecompute ++ [id] } with ⟨r, s₂⟩
    rw [hsu] at tot
    cases r <;> simpa [bindR] using tot

theorem scheduleNotifyM_pres (id : Nat) (s : Sys) :
    invPreserved s (scheduleNotifyM id s).2 := by
  unfold scheduleNotifyM
  split
  · exact invPreserved_refl s
  · rename_i hmem
    have base : invPreserved s { s with toNotify := s.toNotify ++ [id] } := by
      refine invPreserved_of_same_entries rfl rfl (fun x h => h) ?_ (fun x h => h) (fun h => h) ?_
      · intro x hx; exact List.mem_append.mpr (Or.inl hx)
      · intro h; exact nodup_append_singleton h hmem
    have step := scheduleUpdateM_pres { s with toNotify := s.toNotify ++ [id] }
    have tot := invPreserved_trans base step
    rcases hsu : scheduleUpdateM { s with toNotify := s.toNotify ++ [id] } with ⟨r, s₂⟩
    rw [hsu] at tot
    cases r <;> simpa [bindR] using tot

theorem invPreserved_bindR {α β : Type} (r : Res α) (f : α → Sys → Res β) (s : Sys)
    (h1 : invPreserved s r.2) (h2 : ∀ a, invPreserved r.2 (f a r.2).2) :
    invPreserved s (bindR r f).2 := by
  rcases r with ⟨x, s₁⟩
  cases x with
  | error e => simpa [bindR] using h1
  | ok a => exact invPreserved_trans h1 (h2 a)

theorem invalidateList_pres (f : Nat → Sys → Res Unit)
    (hf : ∀ id s, invPreserved s (f id s).2) :
    ∀ (l : List Nat) (s : Sys), invPreserved s (invalidateList f l s).2 := by
  intro l
  induction l with
  | nil => intro s; exact invPreserved_refl s
  | cons id rest ih =>
    intro s
    show invPreserved s (bindR (f id s) fun _ s => invalidateList f rest s).2
    exact invPreserved_bindR _ _ _ (hf id s) fun _ => ih (f id s).2

theorem invalidateNarrowList_pres (f : Nat → Sys → Res Unit)
    (hf : ∀ id s, invPreserved s (f id s).2) :
    ∀ (l : List Nat) (s : Sys), invPreserved s (invalidateNarrowList f l s).2 := by
  intro l
  induction l with
  | nil => intro s; exact invPreserved_refl s
  | cons id rest ih =>
    intro s
    show invPreserved s
      (match kindOfE s id with
       | some .narrowing => bindR (f id s) fun _ s => invalidateNarrowList f rest s
       | some _ => invalidateNarrowList f rest s
       | none => (.error .destroyed, s)).2
    cases hk : kindOfE s id with
    | none => exact invPreserved_refl s
    | some k =>
      cases k with
      | narrowing => exact invPreserved_bindR _ _ _ (hf id s) fun _ => ih (f id s).2
      | scalar => exact ih s
      | widening => exact ih s

theorem invalidateXAfter_pres (n : Nat)
    (ih : ∀ (id : Nat) (s : Sys), invPreserved s ((engine n).invalidateX id s).2)
    (id : Nat) (e : EntryRec) (s : Sys) :
    invPreserved s (invalidateXAfter (engine n) id e s).2 := by
  unfold invalidateXAfter
  dsimp only
  by_cases hk : kindOfS e.schema = Kind.narrowing
  · rw [if_pos hk]
    refine invPreserved_bindR _ _ _ (scheduleRecomputeM_pres id _) fun first => ?_
    cases first
    · exact invPreserved_refl _
    · exact invalidateList_pres _ ih _ _
  · rw [if_neg hk]
    by_cases hw : kindOfS e.schema = Kind.widening
    · rw [if_pos hw]
      refine invPreserved_trans (invPreserved_updValueNone id _) ?_
      refine invPreserved_bindR _ _ _ (scheduleNotifyM_pres id _) fun first => ?_
      cases first
      · exact invPreserved_refl _
      · rw [if_pos rfl]
        cases hp : e.parent with
        | none =>
          dsimp only
          exact invPreserved_bindR _ _ _ (invPreserved_refl _) fun _ =>
            invalidateNarrowList_pres _ ih _ _
        | some pid =>
          dsimp only
          exact invPreserved_bindR _ _ _ (ih pid _) fun _ =>
            invalidateNarrowList_pres _ ih _ _
    · rw [if_neg hw]
      refine invPreserved_bindR _ _ _ (scheduleNotifyM_pres id _) fun first => ?_
      cases first
      · exact invPreserved_refl _
      · rw [if_pos rfl]
        cases hp : e.parent with
        | none =>
          dsimp only
          exact invPreserved_bindR _ _ _ (invPreserved_refl _) fun _ =>
            invalidateNarrowList_pres _ ih _ _
        | some pid =>
          dsimp only
          exact invPreserved_bindR _ _ _ (ih pid _) fun _ =>
            invalidateNarrowList_pres _ ih _ _

theorem invalidateX_pres : ∀ (n : Nat) (id : Nat) (s : Sys),
    invPreserved s ((engine n).invalidateX id s).2 := by
  intro n
  induction n with
  | zero => intro id s; exact invPreserved_refl s
  | succ n ih =>
    intro id s
    show invPreserved s (invalidateXBody (engine n) id s).2
    unfold invalidateXBody
    cases hl : lookupE s id with
    | none => exact invPreserved_refl s
    | some e =>
      exact invPreserved_trans (invPreserved_addEvInval id s)
        (invalidateXAfter_pres n ih id e _)

theorem mem_trace_of_invPreserved {s s' : Sys} (h : invPreserved s s') {ev : Ev}
    (hm : ev ∈ s.trace) : ev ∈ s'.trace := by
  obtain ⟨⟨t, ht, _⟩, _⟩ := h
  rw [ht]
  exact List.mem_append_left t hm

theorem kindOfE_eq_entShape (s : Sys) (j : Nat) :
    kindOfE s j = (entShape s j).map Prod.fst := by
  unfold kindOfE entShape
  cases lookupE s j <;> rfl

theorem kindOfE_of_invPreserved {s s' : Sys} (h : invPreserved s s') (j : Nat) :
    kindOfE s' j = kindOfE s j := by
  rw [kindOfE_eq_entShape, kindOfE_eq_entShape, h.2.2.2.2.1 j]

/-- A successful `invalidate` (extend engine) has recorded its own ghost
mark. -/
theorem invalidateX_ok_event (n : Nat) (id : Nat) (s : Sys) (u : Unit)
    (h : ((engine n).invalidateX id s).1 = .ok u) :
    Ev.invalidE id ∈ ((engine n).invalidateX id s).2.trace := by
  cases n with
  | zero => exact absurd h (by simp [engine, failOps])
  | succ n =>
    have hbody : (engine (n + 1)).invalidateX id s = invalidateXBody (engine n) id s := rfl
    rw [hbody] at h ⊢
    unfold invalidateXBody at h ⊢
    cases hl : lookupE s id with
    | none =>
      rw [hl] at h
      exact absurd h (by simp)
    | some e =>
      have hpres := invalidateXAfter_pres n (fun id s => invalidateX_pres n id s) id e
        (addEv (.invalidE id) s)
      exact mem_trace_of_invPreserved hpres
        (List.mem_append_right s.trace (List.mem_singleton_self _))

theorem invalidateList_events (n : Nat) :
    ∀ (l : List Nat) (s : Sys) (u : Unit),
      (invalidateList ((engine n).invalidateX) l s).1 = .ok u →
      ∀ m ∈ l, Ev.invalidE m ∈ (invalidateList ((engine n).invalidateX) l s).2.trace := by
  intro l
  induction l with
  | nil => intro s u _ m hm; exact absurd hm (by simp)
  | cons id rest ih =>
    intro s u h m hm
    rcases hf : (engine n).invalidateX id s with ⟨r, s₁⟩
    cases r with
    | error e =>
      rw [show invalidateList ((engine n).invalidateX) (id :: rest) s =
        bindR ((engine n).invalidateX id s) (fun _ s => invalidateList ((engine n).invalidateX) rest s)
        from rfl, hf] at h
      exact absurd h (by simp [bindR])
    | ok v =>
      have hred : invalidateList ((engine n).invalidateX) (id :: rest) s =
          invalidateList ((engine n).invalidateX) rest s₁ := by
        show bindR ((engine n).invalidateX id s)
          (fun _ s => invalidateList ((engine n).invalidateX) rest s) = _
        rw [hf]; rfl
      rw [hred] at h ⊢
      rcases List.mem_cons.mp hm with hid | hrest
      · subst hid
        have hev : Ev.invalidE m ∈ s₁.trace := by
          have := invalidateX_ok_event n m s v (by rw [hf])
          rwa [hf] at this
        exact mem_trace_of_invPreserved
          (invalidateList_pres _ (fun id s => invalidateX_pres n id s) rest s₁) hev
      · exact ih s₁ u h m hrest

theorem bindR_eq_of_ok {α β : Type} {r : Res α} {a : α} (h : r.1 = .ok a)
    (f : α → Sys → Res β) : bindR r f = f a r.2 := by
  rcases r with ⟨x, s⟩
  cases x with
  | error e => exact absurd h (by simp)
  | ok b =>
    simp only [Except.ok.injEq] at h
    subst h
    rfl

theorem bindR_eq_of_error {α β : Type} {r : Res α} {e : Err} (h : r.1 = .error e)
    (f : α → Sys → Res β) : bindR r f = (.error e, r.2) := by
  rcases r with ⟨x, s⟩
  cases x with
  | ok b => exact absurd h (by simp)
  | error e' =>
    simp only [Except.error.injEq] at h
    subst h
    rfl

theorem invalidateNarrowList_events (n : Nat) :
    ∀ (l : List Nat) (s : Sys) (u : Unit),
      (invalidateNarrowList ((engine n).invalidateX) l s).1 = .ok u →
      ∀ m ∈ l, kindOfE s m = some .narrowing →
        Ev.invalidE m ∈ (invalidateNarrowList ((engine n).invalidateX) l s).2.trace := by
  intro l
  induction l with
  | nil => intro s u _ m hm; exact absurd hm (by simp)
  | cons id rest ih =>
    intro s u h m hm hkm
    have hshape : invalidateNarrowList ((engine n).invalidateX) (id :: rest) s =
        (match kindOfE s id with
         | some .narrowing => bindR ((engine n).invalidateX id s)
             fun _ s => invalidateNarrowList ((engine n).invalidateX) rest s
         | some _ => invalidateNarrowList ((engine n).invalidateX) rest s
         | none => (.error .destroyed, s)) := rfl
    rw [hshape] at h ⊢
    rcases List.mem_cons.mp hm with hid | hrest
    · subst hid
      rw [hkm] at h ⊢
      dsimp only at h ⊢
      cases hr : ((engine n).invalidateX m s).1 with
      | error e =>
        rw [bindR_eq_of_error hr] at h
        exact absurd h (by simp)
      | ok v =>
        rw [bindR_eq_of_ok hr] at h ⊢
        have hev : Ev.invalidE m ∈ ((engine n).invalidateX m s).2.trace :=
          invalidateX_ok_event n m s v hr
        exact mem_trace_of_invPreserved
          (invalidateNarrowList_pres _ (fun id s => invalidateX_pres n id s) rest _) hev
    · cases hk : kindOfE s id with
      | none =>
        rw [hk] at h
        dsimp only at h
        exact Except.noConfusion h
      | some k =>
        rw [hk] at h
        cases k with
        | narrowing =>
          dsimp only at h ⊢
          cases hr : ((engine n).invalidateX id s).1 with
          | error e =>
            rw [bindR_eq_of_error hr] at h
            exact absurd h (by simp)
          | ok v =>
            rw [bindR_eq_of_ok hr] at h ⊢
            have hpres := invalidateX_pres n id s
            have hkm₁ : kindOfE ((engine n).invalidateX id s).2 m = some .narrowing := by
              rw [kindOfE_of_invPreserved hpres m]; exact hkm
            exact ih _ u h m hrest hkm₁
        | scalar =>
          dsimp only at h ⊢
          exact ih s u h m hrest hkm
        | widening =>
          dsimp only at h ⊢
          exact ih s u h m hrest hkm

theorem scheduleRecomputeM_of_mem {id : Nat} {s : Sys} (h : id ∈ s.toRecompute) :
    scheduleRecomputeM id s = (.ok false, s) := by
  unfold scheduleRecomputeM
  rw [if_pos h]

theorem scheduleNotifyM_of_mem {id : Nat} {s : Sys} (h : id ∈ s.toNotify) :
    scheduleNotifyM id s = (.ok false, s) := by
  unfold scheduleNotifyM
  rw [if_pos h]

theorem scheduleRecomputeM_of_not_mem {id : Nat} {s : Sys} (h : id ∉ s.toRecompute) :
    id ∈ (scheduleRecomputeM id s).2.toRecompute ∧
      ((scheduleRecomputeM id s).1 = .ok true ∨ (scheduleRecomputeM id s).1 = .error .infiniteLoop) := by
  unfold scheduleRecomputeM scheduleUpdateM
  rw [if_neg h]
  split
  · simp [bindR]
  · split <;> simp [bindR]

theorem scheduleNotifyM_of_not_mem {id : Nat} {s : Sys} (h : id ∉ s.toNotify) :
    id ∈ (scheduleNotifyM id s).2.toNotify ∧
      ((scheduleNotifyM id s).1 = .ok true ∨ (scheduleNotifyM id s).1 = .error .infiniteLoop) := by
  unfold scheduleNotifyM scheduleUpdateM
  rw [if_neg h]
  split
  · simp [bindR]
  · split <;> simp [bindR]

theorem traceListeners_append (a b : List Ev) :
    traceListeners (a ++ b) = traceListeners a ++ traceListeners b := by
  induction a with
  | nil => rfl
  | cons ev rest ih => cases ev <;> simp [traceListeners, ih]

theorem traceListeners_invalidE (t : List Ev) (h : ∀ ev ∈ t, ∃ j, ev = Ev.invalidE j) :
    traceListeners t = [] := by
  induction t with
  | nil => rfl
  | cons ev rest ih =>
    obtain ⟨j, hj⟩ := h ev (List.mem_cons_self _ _)
    subst hj
    exact ih fun ev hev => h ev (List.mem_cons_of_mem _ hev)

/-- `invPreserved` implies no listener was invoked in between. -/
theorem listenerEvents_of_invPreserved {s s' : Sys} (h : invPreserved s s') :
    listenerEvents s' = listenerEvents s := by
  obtain ⟨⟨t, ht, he⟩, _⟩ := h
  unfold listenerEvents
  rw [ht, traceListeners_append, traceListeners_invalidE t he, List.append_nil]

/-- First recompute request of the batch on a Narrowing entry: the entry
lands in the pending recompute set and each child has been invalidated. -/
theorem invalidateX_recompute_first (n id : Nat) (s : Sys) (e : EntryRec) (u : Unit)
    (hl : lookupE s id = some e) (hk : kindOfS e.schema = Kind.narrowing)
    (hmem : id ∉ s.toRecompute)
    (h : ((engine (n + 1)).invalidateX id s).1 = .ok u) :
    id ∈ ((engine (n + 1)).invalidateX id s).2.toRecompute ∧
    ∀ m ∈ e.members.map Prod.snd,
      Ev.invalidE m ∈ ((engine (n + 1)).invalidateX id s).2.trace := by
  have hb : (engine (n + 1)).invalidateX id s =
      invalidateXAfter (engine n) id e (addEv (.invalidE id) s) := by
    have h0 : (engine (n + 1)).invalidateX id s = invalidateXBody (engine n) id s := rfl
    rw [h0]
    unfold invalidateXBody
    rw [hl]
  rw [hb] at h ⊢
  unfold invalidateXAfter at h ⊢
  dsimp only at h ⊢
  rw [if_pos hk] at h ⊢
  obtain ⟨hin, hcase⟩ := scheduleRecomputeM_of_not_mem
    (show id ∉ (addEv (.invalidE id) s).toRecompute from hmem)
  rcases hcase with hok | herr
  · rw [bindR_eq_of_ok hok] at h ⊢
    try dsimp only at h ⊢
    rw [if_pos rfl] at h ⊢
    refine ⟨?_, ?_⟩
    · exact (invalidateList_pres _ (fun i t => invalidateX_pres n i t) _ _).2.1 id hin
    · intro m hm
      exact invalidateList_events n _ _ u h m hm
  · rw [bindR_eq_of_error herr] at h
    exact absurd h (by simp)

/-- First notify request of the batch on a non-Narrowing entry: the entry
lands in the pending notify set, the parent (if any) and every Narrowing
child have been invalidated. -/
theorem invalidateX_notify_first (n id : Nat) (s : Sys) (e : EntryRec) (u : Unit)
    (hl : lookupE s id = some e) (hk : ¬ kindOfS e.schema = Kind.narrowing)
    (hmem : id ∉ s.toNotify)
    (h : ((engine (n + 1)).invalidateX id s).1 = .ok u) :
    id ∈ ((engine (n + 1)).invalidateX id s).2.toNotify ∧
    (∀ pid, e.parent = some pid →
      Ev.invalidE pid ∈ ((engine (n + 1)).invalidateX id s).2.trace) ∧
    (∀ m ∈ e.members.map Prod.snd, kindOfE s m = some Kind.narrowing →
      Ev.invalidE m ∈ ((engine (n + 1)).invalidateX id s).2.trace) := by
  have hb : (engine (n + 1)).invalidateX id s =
      invalidateXAfter (engine n) id e (addEv (.invalidE id) s) := by
    have h0 : (engine (n + 1)).invalidateX id s = invalidateXBody (engine n) id s := rfl
    rw [h0]
    unfold invalidateXBody
    rw [hl]
  rw [hb] at h ⊢
  unfold invalidateXAfter at h ⊢
  dsimp only at h ⊢
  rw [if_neg hk] at h ⊢
  obtain hp | ⟨pid, hp⟩ : e.parent = none ∨ ∃ pid, e.parent = some pid := by
    cases e.parent
    · exact Or.inl rfl
    · exact Or.inr ⟨_, rfl⟩
  · rw [hp] at h ⊢
    by_cases hw : kindOfS e.schema = Kind.widening
    · rw [if_pos hw] at h ⊢
      have hpres₀ : invPreserved s (updEntry id (fun e => { e with value := none }) (addEv (.invalidE id) s)) :=
        invPreserved_trans (invPreserved_addEvInval id s) (invPreserved_updValueNone id _)
      obtain ⟨hin, hcase⟩ := scheduleNotifyM_of_not_mem
        (show id ∉ (updEntry id (fun e => { e with value := none }) (addEv (.invalidE id) s)).toNotify from hmem)
      rcases hcase with hok | herr
      · rw [bindR_eq_of_ok hok] at h ⊢
        try dsimp only at h ⊢
        rw [if_pos rfl] at h ⊢
        try dsimp only at h ⊢
        have hpres₁ : invPreserved s (scheduleNotifyM id (updEntry id (fun e => { e with value := none }) (addEv (.invalidE id) s))).2 :=
          invPreserved_trans hpres₀ (scheduleNotifyM_pres id _)
        rw [bindR_ok] at h ⊢
        refine ⟨?_, ?_, ?_⟩
        · exact (invalidateNarrowList_pres _ (fun i t => invalidateX_pres n i t) _ _).2.2.1 id hin
        · intro pid hpid
          exact Option.noConfusion hpid
        · intro m hm hkm
          refine invalidateNarrowList_events n _ _ u h m hm ?_
          rw [kindOfE_of_invPreserved hpres₁ m]
          exact hkm
      · rw [bindR_eq_of_error herr] at h
        exact absurd h (by simp)
    · rw [if_neg hw] at h ⊢
      have hpres₀ : invPreserved s (addEv (.invalidE id) s) :=
        invPreserved_addEvInval id s
      obtain ⟨hin, hcase⟩ := scheduleNotifyM_of_not_mem
        (show id ∉ (addEv (.invalidE id) s).toNotify from hmem)
      rcases hcase with hok | herr
      · rw [bindR_eq_of_ok hok] at h ⊢
        try dsimp only at h ⊢
        rw [if_pos rfl] at h ⊢
        try dsimp only at h ⊢
        have hpres₁ : invPreserved s (scheduleNotifyM id (addEv (.invalidE id) s)).2 :=
          invPreserved_trans hpres₀ (scheduleNotifyM_pres id _)
        rw [bindR_ok] at h ⊢
        refine ⟨?_, ?_, ?_⟩
        · exact (invalidateNarrowList_pres _ (fun i t => invalidateX_pres n i t) _ _).2.2.1 id hin
        · intro pid hpid
          exact Option.noConfusion hpid
        · intro m hm hkm
          refine invalidateNarrowList_events n _ _ u h m hm ?_
          rw [kindOfE_of_invPreserved hpres₁ m]
          exact hkm
      · rw [bindR_eq_of_error herr] at h
        exact absurd h (by simp)
  · rw [hp] at h ⊢
    by_cases hw : kindOfS e.schema = Kind.widening
    · rw [if_pos hw] at h ⊢
      have hpres₀ : invPreserved s (updEntry id (fun e => { e with value := none }) (addEv (.invalidE id) s)) :=
        invPreserved_trans (invPreserved_addEvInval id s) (invPreserved_updValueNone id _)
      obtain ⟨hin, hcase⟩ := scheduleNotifyM_of_not_mem
        (show id ∉ (updEntry id (fun e => { e with value := none }) (addEv (.invalidE id) s)).toNotify from hmem)
      rcases hcase with hok | herr
      · rw [bindR_eq_of_ok hok] at h ⊢
        try dsimp only at h ⊢
        rw [if_pos rfl] at h ⊢
        try dsimp only at h ⊢
        have hpres₁ : invPreserved s (scheduleNotifyM id (updEntry id (fun e => { e with value := none }) (addEv (.invalidE id) s))).2 :=
          invPreserved_trans hpres₀ (scheduleNotifyM_pres id _)
        cases hpr : ((engine n).invalidateX pid (scheduleNotifyM id (updEntry id (fun e => { e with value := none }) (addEv (.invalidE id) s))).2).1 with
        | error er =>
          rw [bindR_eq_of_error hpr] at h
          exact absurd h (by simp)
        | ok v =>
          rw [bindR_eq_of_ok hpr] at h ⊢
          try dsimp only at h ⊢
          have hpres₂ : invPreserved s
              ((engine n).invalidateX pid (scheduleNotifyM id (updEntry id (fun e => { e with value := none }) (addEv (.invalidE id) s))).2).2 :=
            invPreserved_trans hpres₁ (invalidateX_pres n pid _)
          refine ⟨?_, ?_, ?_⟩
          · exact (invalidateNarrowList_pres _ (fun i t => invalidateX_pres n i t) _ _).2.2.1 id
              ((invalidateX_pres n pid _).2.2.1 id hin)
          · intro pid' hpid'
            injection hpid' with hh
            subst hh
            exact mem_trace_of_invPreserved
              (invalidateNarrowList_pres _ (fun i t => invalidateX_pres n i t) _ _)
              (invalidateX_ok_event n pid _ v hpr)
          · intro m hm hkm
            refine invalidateNarrowList_events n _ _ u h m hm ?_
            rw [kindOfE_of_invPreserved hpres₂ m]
            exact hkm
      · rw [bindR_eq_of_error herr] at h
        exact absurd h (by simp)
    · rw [if_neg hw] at h ⊢
      have hpres₀ : invPreserved s (addEv (.invalidE id) s) :=
        invPreserved_addEvInval id s
      obtain ⟨hin, hcase⟩ := scheduleNotifyM_of_not_mem
        (show id ∉ (addEv (.invalidE id) s).toNotify from hmem)
      rcases hcase with hok | herr
      · rw [bindR_eq_of_ok hok] at h ⊢
        try dsimp only at h ⊢
        rw [if_pos rfl] at h ⊢
        try dsimp only at h ⊢
        have hpres₁ : invPreserved s (scheduleNotifyM id (addEv (.invalidE id) s)).2 :=
          invPreserved_trans hpres₀ (scheduleNotifyM_pres id _)
        cases hpr : ((engine n).invalidateX pid (scheduleNotifyM id (addEv (.invalidE id) s)).2).1 with
        | error er =>
          rw [bindR_eq_of_error hpr] at h
          exact absurd h (by simp)
        | ok v =>
          rw [bindR_eq_of_ok hpr] at h ⊢
          try dsimp only at h ⊢
          have hpres₂ : invPreserved s
              ((engine n).invalidateX pid (scheduleNotifyM id (addEv (.invalidE id) s)).2).2 :=
            invPreserved_trans hpres₁ (invalidateX_pres n pid _)
          refine ⟨?_, ?_, ?_⟩
          · exact (invalidateNarrowList_pres _ (fun i t => invalidateX_pres n i t) _ _).2.2.1 id
              ((invalidateX_pres n pid _).2.2.1 id hin)
          · intro pid' hpid'
            injection hpid' with hh
            subst hh
            exact mem_trace_of_invPreserved
              (invalidateNarrowList_pres _ (fun i t => invalidateX_pres n i t) _ _)
              (invalidateX_ok_event n pid _ v hpr)
          · intro m hm hkm
            refine invalidateNarrowList_events n _ _ u h m hm ?_
            rw [kindOfE_of_invPreserved hpres₂ m]
            exact hkm
      · rw [bindR_eq_of_error herr] at h
        exact absurd h (by simp)

/-- C1 (amended): on the `extend.ts` engine the claim's dispatch holds
exactly.  For every live entry: (a) a Narrowing entry already pending
recompute is only ghost-marked — no scheduling, no propagation, no state
change; (b) on the batch's first recompute request a Narrowing entry
lands in the pending recompute set and every child is invalidated;
(c)/(d) a Scalar (resp. Widening) entry already pending notify is only
ghost-marked (resp. additionally has its cached value discarded) with no
propagation; (e) on the batch's first notify request a non-Narrowing
entry lands in the pending notify set, invalidation propagates to the
parent and to every direct Narrowing child; and (f) invalidation never
invokes a listener. -/
theorem claim_C1 (n id : Nat) (s : Sys) (e : EntryRec)
    (hl : lookupE s id = some e) :
    (kindOfS e.schema = Kind.narrowing → id ∈ s.toRecompute →
      (engine (n + 1)).invalidateX id s = (.ok (), addEv (.invalidE id) s)) ∧
    (∀ u, kindOfS e.schema = Kind.narrowing → id ∉ s.toRecompute →
      ((engine (n + 1)).invalidateX id s).1 = .ok u →
      id ∈ ((engine (n + 1)).invalidateX id s).2.toRecompute ∧
      ∀ m ∈ e.members.map Prod.snd,
        Ev.invalidE m ∈ ((engine (n + 1)).invalidateX id s).2.trace) ∧
    (kindOfS e.schema = Kind.scalar → id ∈ s.toNotify →
      (engine (n + 1)).invalidateX id s = (.ok (), addEv (.invalidE id) s)) ∧
    (kindOfS e.schema = Kind.widening → id ∈ s.toNotify →
      (engine (n + 1)).invalidateX id s =
        (.ok (), updEntry id (fun e => { e with value := none })
          (addEv (.invalidE id) s))) ∧
    (∀ u, ¬ kindOfS e.schema = Kind.narrowing → id ∉ s.toNotify →
      ((engine (n + 1)).invalidateX id s).1 = .ok u →
      id ∈ ((engine (n + 1)).invalidateX id s).2.toNotify ∧
      (∀ pid, e.parent = some pid →
        Ev.invalidE pid ∈ ((engine (n + 1)).invalidateX id s).2.trace) ∧
      (∀ m ∈ e.members.map Prod.snd, kindOfE s m = some Kind.narrowing →
        Ev.invalidE m ∈ ((engine (n + 1)).invalidateX id s).2.trace)) ∧
    listenerEvents ((engine (n + 1)).invalidateX id s).2 = listenerEvents s := by
  have hb : (engine (n + 1)).invalidateX id s =
      invalidateXAfter (engine n) id e (addEv (.invalidE id) s) := by
    have h0 : (engine (n + 1)).invalidateX id s = invalidateXBody (engine n) id s := rfl
    rw [h0]
    unfold invalidateXBody
    rw [hl]
  refine ⟨?_, ?_, ?_, ?_, ?_, ?_⟩
  · intro hk hmem
    rw [hb]
    unfold invalidateXAfter
    dsimp only
    rw [if_pos hk,
        scheduleRecomputeM_of_mem (show id ∈ (addEv (.invalidE id) s).toRecompute from hmem)]
    rfl
  · intro u hk hmem h
    exact invalidateX_recompute_first n id s e u hl hk hmem h
  · intro hk hmem
    rw [hb]
    unfold invalidateXAfter
    dsimp only
    rw [if_neg (by rw [hk]; exact fun hc => Kind.noConfusion hc),
        if_neg (by rw [hk]; exact fun hc => Kind.noConfusion hc),
        scheduleNotifyM_of_mem (show id ∈ (addEv (.invalidE id) s).toNotify from hmem)]
    rfl
  · intro hk hmem
    rw [hb]
    unfold invalidateXAfter
    dsimp only
    rw [if_neg (by rw [hk]; exact fun hc => Kind.noConfusion hc), if_pos hk,
        scheduleNotifyM_of_mem (show id ∈ (updEntry id (fun e => { e with value := none })
          (addEv (.invalidE id) s)).toNotify from hmem)]
    rfl
  · intro u hk hmem h
    exact invalidateX_notify_first n id s e u hl hk hmem h
  · exact listenerEvents_of_invPreserved (invalidateX_pres (n + 1) id s)

/-- C1 witness: the scalar member `x` (entry 1) of
`object({x: scalar(0)})` after one `invalidate()` on the `extend.ts`
engine — already pending notify, a second `invalidate()` is exactly the
ghost mark and changes nothing. -/
theorem claim_C1_witness :
    lookupE invXOnce 1 = some xEntryRec ∧
    1 ∈ invXOnce.toNotify ∧
    (engine 8).invalidateX 1 invXOnce = (.ok (), addEv (.invalidE 1) invXOnce) :=
  ⟨rfl, by decide,
    (claim_C1 7 1 invXOnce xEntryRec rfl).2.2.1 rfl (by decide)⟩

/-! ### Claim C2 — what `extend.ts`'s `set` does and does not do -/

/-- `changeX` on a plain scalar schema never touches the system state. -/
theorem changeX_scalarS_state (n id : Nat) (d : Val) (cmp : Val → Val → Bool)
    (v : Val) (pv : Option Val) (s : Sys) :
    ((engine n).changeX id (.scalarS d cmp) v pv s).2 = s := by
  cases n with
  | zero => rfl
  | succ n =>
    show (changeXBody (engine n) id (.scalarS d cmp) v pv s).2 = s
    unfold changeXBody
    cases pv with
    | none => rfl
    | some p =>
      dsimp only
      split
      · rfl
      · rfl

theorem changeX_scalarS_eq (n id : Nat) (d : Val) (cmp : Val → Val → Bool)
    (v : Val) (pv : Option Val) (s : Sys) :
    (engine (n + 1)).changeX id (.scalarS d cmp) v pv s =
      (match pv with
       | some p => if cmp v p then (.ok none, s) else (.ok (some v), s)
       | none => (.ok (some v), s)) := rfl

theorem changeX_scalarB_eq (n id : Nat) (d : Val) (cmp : Val → Val → Bool)
    (v : Val) (pv : Option Val) (s : Sys) :
    (engine (n + 1)).changeX id (.scalarB d cmp) v pv s =
      (match pv with
       | some p =>
         if cmp v p then (.ok none, s)
         else bindR ((engine n).invalidateX id s) fun _ s => (.ok (some v), s)
       | none => bindR ((engine n).invalidateX id s) fun _ s => (.ok (some v), s)) := rfl

theorem changeX_computedS_eq (n id : Nat) (f : Val → Val) (c : Val → Val → Bool)
    (v : Val) (pv : Option Val) (s : Sys) :
    (engine (n + 1)).changeX id (.computedS f c) v pv s = (.ok none, s) := rfl

/-- `Entry.set` of `extend.ts`, one unfolding: invoke `schema.change`,
then either stop (keep sentinel) or store the value and check for
emptiness — and nothing else. -/
theorem setX_eq (n id : Nat) (v : Val) (s : Sys) (e : EntryRec)
    (hl : lookupE s id = some e) :
    (engine (n + 1)).setX id v s =
      bindR ((engine n).changeX id e.schema v e.value s) fun nv t =>
        match nv with
        | none => (.ok (), t)
        | some newV =>
          (engine n).checkDelete id (updEntry id (fun e => { e with value := some newV }) t) := by
  have hb : (engine (n + 1)).setX id v s = setXBody (engine n) id v s := rfl
  rw [hb]
  unfold setXBody
  rw [hl]

/-- `hasValue` on a scalar entry never touches the system state. -/
theorem hasValue_scalar_state (n id : Nat) (s : Sys) (e : EntryRec) (d : Val)
    (cmp : Val → Val → Bool) (hl : lookupE s id = some e)
    (hs : e.schema = .scalarS d cmp ∨ e.schema = .scalarB d cmp) :
    ((engine n).hasValue id s).2 = s := by
  cases n with
  | zero => rfl
  | succ n =>
    show (hasValueBody (engine n) id s).2 = s
    unfold hasValueBody
    rw [hl]
    dsimp only
    rcases hs with hs | hs <;> rw [hs] <;> dsimp only <;> cases e.value <;> rfl

/-- `isEmpty` on a scalar entry never touches the system state. -/
theorem isEmpty_scalar_state (n id : Nat) (s : Sys) (e : EntryRec) (d : Val)
    (cmp : Val → Val → Bool) (hl : lookupE s id = some e)
    (hs : e.schema = .scalarS d cmp ∨ e.schema = .scalarB d cmp) :
    ((engine n).isEmpty id s).2 = s := by
  cases n with
  | zero => rfl
  | succ n =>
    show (isEmptyBody (engine n) id s).2 = s
    unfold isEmptyBody
    rw [hl]
    dsimp only
    split
    · rfl
    · have h2 := hasValue_scalar_state n id s e d cmp hl hs
      cases hr : ((engine n).hasValue id s).1 with
      | error er =>
        rw [bindR_eq_of_error hr]
        exact h2
      | ok b =>
        rw [bindR_eq_of_ok hr]
        exact h2

/-- Scheduling destruction leaves the pending recompute and notify sets,
the trace and the arena untouched. -/
theorem scheduleDestroyM_frame (id : Nat) (s : Sys) :
    (scheduleDestroyM id s).2.toRecompute = s.toRecompute ∧
    (scheduleDestroyM id s).2.toNotify = s.toNotify ∧
    (scheduleDestroyM id s).2.trace = s.trace ∧
    (scheduleDestroyM id s).2.entries = s.entries := by
  unfold scheduleDestroyM scheduleUpdateM
  split
  · exact ⟨rfl, rfl, rfl, rfl⟩
  · split
    · exact ⟨rfl, rfl, rfl, rfl⟩
    · split
      · exact ⟨rfl, rfl, rfl, rfl⟩
      · exact ⟨rfl, rfl, rfl, rfl⟩

/-- `checkDelete` on a scalar entry leaves the pending recompute and
notify sets and the trace untouched (it can only schedule destruction). -/
theorem checkDelete_scalar_frame (n id : Nat) (s : Sys) (e : EntryRec) (d : Val)
    (cmp : Val → Val → Bool) (hl : lookupE s id = some e)
    (hs : e.schema = .scalarS d cmp ∨ e.schema = .scalarB d cmp) :
    ((engine n).checkDelete id s).2.toRecompute = s.toRecompute ∧
    ((engine n).checkDelete id s).2.toNotify = s.toNotify ∧
    ((engine n).checkDelete id s).2.trace = s.trace := by
  cases n with
  | zero => exact ⟨rfl, rfl, rfl⟩
  | succ n =>
    have hb : (engine (n + 1)).checkDelete id s = checkDeleteBody (engine n) id s := rfl
    rw [hb]
    unfold checkDeleteBody
    have h2 := isEmpty_scalar_state n id s e d cmp hl hs
    cases hr : ((engine n).isEmpty id s).1 with
    | error er =>
      rw [bindR_eq_of_error hr, h2]
      exact ⟨rfl, rfl, rfl⟩
    | ok em =>
      rw [bindR_eq_of_ok hr, h2]
      cases em
      · exact ⟨rfl, rfl, rfl⟩
      · try dsimp only
        rw [if_pos rfl]
        obtain ⟨hR, hN, hT, _⟩ := scheduleDestroyM_frame id s
        cases hd : (scheduleDestroyM id s).1 with
        | error er =>
          rw [bindR_eq_of_error hd]
          exact ⟨hR, hN, hT⟩
        | ok b =>
          rw [bindR_eq_of_ok hd]
          exact ⟨hR, hN, hT⟩

/-- `set` on a plain scalar entry, at any fuel: the pending recompute and
notify sets and the trace are exactly unchanged. -/
theorem setX_scalarS_frame (n id : Nat) (v : Val) (s : Sys) (e : EntryRec) (d : Val)
    (cmp : Val → Val → Bool) (hl : lookupE s id = some e)
    (hs : e.schema = .scalarS d cmp) :
    ((engine n).setX id v s).2.toRecompute = s.toRecompute ∧
    ((engine n).setX id v s).2.toNotify = s.toNotify ∧
    ((engine n).setX id v s).2.trace = s.trace := by
  cases n with
  | zero => exact ⟨rfl, rfl, rfl⟩
  | succ n =>
    rw [setX_eq n id v s e hl, hs]
    have h2 := changeX_scalarS_state n id d cmp v e.value s
    cases hc : ((engine n).changeX id (.scalarS d cmp) v e.value s).1 with
    | error er =>
      rw [bindR_eq_of_error hc, h2]
      exact ⟨rfl, rfl, rfl⟩
    | ok nv =>
      rw [bindR_eq_of_ok hc, h2]
      cases nv with
      | none => exact ⟨rfl, rfl, rfl⟩
      | some newV =>
        have hl' : lookupE (updEntry id (fun e => { e with value := some newV }) s) id =
            some { e with value := some newV } := by
          rw [lookupE_updEntry_self, hl]
          rfl
        exact checkDelete_scalar_frame n id _ { e with value := some newV } d cmp hl'
          (Or.inl hs)

/-- C2 (amended to the `extend.ts` engine it describes): `set(v)` invokes
`schema.change` and, when the result is not the keep sentinel, replaces
the cached value and checks the entry for emptiness — nothing more.  For
a plain scalar schema (whose `change` does not invalidate): a write equal
to the previous value under the comparator is a complete no-op, an
accepted write is exactly value-replacement followed by the emptiness
check, and at every fuel the pending recompute and notify sets and the
trace (hence every listener) are untouched.  A `computed` entry rejects
every direct write as a no-op.  For the `src/lib/scalar.ts` scalar, whose
`change` calls `entry.invalidate()` after accepting a write, `set`
factors exactly as that `invalidate` followed by value-replacement and
the emptiness check — propagation happens only through the schema's
`change`. -/
theorem claim_C2 (n id : Nat) (v : Val) (s : Sys) (e : EntryRec) (d : Val)
    (cmp : Val → Val → Bool) (hl : lookupE s id = some e) :
    (∀ p, e.schema = .scalarS d cmp → e.value = some p → cmp v p = true →
      (engine (n + 2)).setX id v s = (.ok (), s)) ∧
    (e.schema = .scalarS d cmp → e.value = none →
      (engine (n + 2)).setX id v s =
        (engine (n + 1)).checkDelete id
          (updEntry id (fun e => { e with value := some v }) s)) ∧
    (∀ p, e.schema = .scalarS d cmp → e.value = some p → cmp v p = false →
      (engine (n + 2)).setX id v s =
        (engine (n + 1)).checkDelete id
          (updEntry id (fun e => { e with value := some v }) s)) ∧
    (e.schema = .scalarS d cmp → ∀ m,
      ((engine m).setX id v s).2.toRecompute = s.toRecompute ∧
      ((engine m).setX id v s).2.toNotify = s.toNotify ∧
      ((engine m).setX id v s).2.trace = s.trace) ∧
    (∀ f c, e.schema = .computedS f c →
      (engine (n + 2)).setX id v s = (.ok (), s)) ∧
    (∀ p, e.schema = .scalarB d cmp → e.value = some p → cmp v p = true →
      (engine (n + 3)).setX id v s = (.ok (), s)) ∧
    (∀ p, e.schema = .scalarB d cmp → e.value = some p → cmp v p = false →
      (engine (n + 3)).setX id v s =
        bindR ((engine (n + 1)).invalidateX id s) fun _ t =>
          (engine (n + 2)).checkDelete id
            (updEntry id (fun e => { e with value := some v }) t)) := by
  refine ⟨?_, ?_, ?_, ?_, ?_, ?_, ?_⟩
  · intro p hs hv hcmp
    rw [setX_eq (n + 1) id v s e hl, hs, hv, changeX_scalarS_eq n id d cmp v (some p) s]
    dsimp only
    rw [if_pos hcmp]
    rfl
  · intro hs hv
    rw [setX_eq (n + 1) id v s e hl, hs, hv, changeX_scalarS_eq n id d cmp v none s]
    rfl
  · intro p hs hv hcmp
    rw [setX_eq (n + 1) id v s e hl, hs, hv, changeX_scalarS_eq n id d cmp v (some p) s]
    dsimp only
    rw [if_neg (by rw [hcmp]; exact fun hc => Bool.noConfusion hc)]
    rfl
  · intro hs m
    exact setX_scalarS_frame m id v s e d cmp hl hs
  · intro f c hs
    rw [setX_eq (n + 1) id v s e hl, hs, changeX_computedS_eq n id f c v e.value s]
    rfl
  · intro p hs hv hcmp
    rw [setX_eq (n + 2) id v s e hl, hs, hv, changeX_scalarB_eq (n + 1) id d cmp v (some p) s]
    dsimp only
    rw [if_pos hcmp]
    rfl
  · intro p hs hv hcmp
    rw [setX_eq (n + 2) id v s e hl, hs, hv, changeX_scalarB_eq (n + 1) id d cmp v (some p) s]
    dsimp only
    rw [if_neg (by rw [hcmp]; exact fun hc => Bool.noConfusion hc)]
    cases hi : ((engine (n + 1)).invalidateX id s).1 with
    | error er =>
      rw [bindR_eq_of_error hi, bindR_eq_of_error hi]
      rfl
    | ok u =>
      rw [bindR_eq_of_ok hi, bindR_eq_of_ok hi]
      rfl

/-- C2 witness: a fresh root scalar (value unset), `set(5)` at the
smallest fuel — exactly value-replacement followed by the emptiness
check. -/
theorem claim_C2_witness :
    lookupE (initSys (.scalarS (.num 0) cmpNum)) 0 = some (rootRec (.scalarS (.num 0) cmpNum)) ∧
    (rootRec (.scalarS (.num 0) cmpNum)).value = none ∧
    (engine 2).setX 0 (.num 5) (initSys (.scalarS (.num 0) cmpNum)) =
      (engine 1).checkDelete 0
        (updEntry 0 (fun e => { e with value := some (.num 5) })
          (initSys (.scalarS (.num 0) cmpNum))) :=
  ⟨rfl, rfl,
    (claim_C2 0 0 (.num 5) (initSys (.scalarS (.num 0) cmpNum))
        (rootRec (.scalarS (.num 0) cmpNum)) (.num 0) cmpNum rfl).2.1 rfl rfl⟩

/-! ### Claim C4 — the runaway-loop guard -/

theorem doUpdate_reset_aux (t : Sys) :
    (if t.timeoutScheduled then t else { t with updateIteration := 0 }).timeoutScheduled
        = false →
    (if t.timeoutScheduled then t else { t with updateIteration := 0 }).updateIteration
        = 0 := by
  intro h
  split at h
  · rename_i hc
    rw [h] at hc
    exact Bool.noConfusion hc
  · rename_i hc
    rw [if_neg hc]

/-- C4: the guard on `scheduleUpdate` and the counter reset in
`_doUpdate`.  With no callback pending and the iteration counter at or
above the ceiling (3), the next scheduling attempt raises the fatal
infinite-loop error and schedules nothing; below the ceiling it bumps the
counter and schedules the callback; with a callback already pending it is
a no-op; and a drain that ends with no further callback scheduled resets
the iteration counter to zero. -/
theorem claim_C4 (s : Sys) :
    (s.timeoutScheduled = false → updateIterationMax ≤ s.updateIteration →
      scheduleUpdateM s =
        (.error .infiniteLoop, { s with updateIteration := s.updateIteration + 1 }) ∧
      (scheduleUpdateM s).2.timeoutScheduled = false) ∧
    (s.timeoutScheduled = false → s.updateIteration < updateIterationMax →
      scheduleUpdateM s =
        (.ok (), { s with updateIteration := s.updateIteration + 1,
                          timeoutScheduled := true })) ∧
    (s.timeoutScheduled = true → scheduleUpdateM s = (.ok (), s)) ∧
    (∀ ops, (doUpdate ops s).1.timeoutScheduled = false →
      (doUpdate ops s).1.updateIteration = 0) := by
  refine ⟨?_, ?_, ?_, ?_⟩
  · intro h1 h2
    have heq : scheduleUpdateM s =
        (.error .infiniteLoop, { s with updateIteration := s.updateIteration + 1 }) := by
      unfold scheduleUpdateM
      rw [if_neg (by rw [h1]; exact fun hx => Bool.noConfusion hx),
          if_pos (Nat.lt_succ_of_le h2)]
    refine ⟨heq, ?_⟩
    rw [heq]
    exact h1
  · intro h1 h2
    unfold scheduleUpdateM
    rw [if_neg (by rw [h1]; exact fun hx => Bool.noConfusion hx),
        if_neg (by exact Nat.not_lt.mpr h2)]
  · intro h1
    unfold scheduleUpdateM
    rw [if_pos h1]
  · intro ops h
    unfold doUpdate at h ⊢
    dsimp only at h ⊢
    exact doUpdate_reset_aux _ h

/-- C4 witness: an idle Manager that has been through three non-idle
rounds — the next scheduling attempt is the fatal error, with no callback
scheduled. -/
theorem claim_C4_witness :
    guardSys.timeoutScheduled = false ∧
    updateIterationMax ≤ guardSys.updateIteration ∧
    scheduleUpdateM guardSys =
      (.error .infiniteLoop, { guardSys with updateIteration := guardSys.updateIteration + 1 }) :=
  ⟨rfl, by decide, ((claim_C4 guardSys).1 rfl (by decide)).1⟩

/-! ### Claim C5 — the semantics of `get` -/

/-- A cached value is returned as-is: no guard, no compute, no state
change. -/
theorem get_cached_eq (n id : Nat) (flags : MembersFlags) (s : Sys) (e : EntryRec)
    (v : Val) (hl : lookupE s id = some e) (hv : e.value = some v) :
    (engine (n + 1)).get id flags s = (.ok v, s) := by
  have hb : (engine (n + 1)).get id flags s = getBody (engine n) id flags s := rfl
  rw [hb]
  unfold getBody
  rw [hl]
  try dsimp only
  rw [hv]

/-- An uncached `get` whose `compute` produced a value caches it (and
releases the re-entrancy guard). -/
theorem get_compute_some_eq (n id : Nat) (flags : MembersFlags) (s : Sys) (e : EntryRec)
    (v : Val) (t : Sys) (hl : lookupE s id = some e) (hv : e.value = none)
    (hc : e.isComputing = false)
    (hcomp : (engine n).compute id e.schema none flags
        (addEv (.computeE id) (updEntry id (fun e => { e with isComputing := true }) s)) =
      (.ok (some v), t)) :
    (engine (n + 1)).get id flags s =
      (.ok v, updEntry id (fun e => { e with isComputing := false, value := some v }) t) := by
  have hb : (engine (n + 1)).get id flags s = getBody (engine n) id flags s := rfl
  rw [hb]
  unfold getBody
  rw [hl]
  try dsimp only
  rw [hv]
  try dsimp only
  rw [if_neg (by rw [hc]; exact fun hx => Bool.noConfusion hx)]
  try dsimp only
  rw [hcomp]

/-- C5: the dispatch of `get()`.  A cached value is returned with no
state change at all (in particular `schema.compute` is not invoked: the
ghost trace is unchanged).  With no cached value: if the re-entrancy
guard is already held the call fails with the recursive-compute error;
otherwise `schema.compute` runs once on the unset sentinel, a keep
result is the fatal contract-violation error, an error propagates (guard
released), and a concrete value is cached and returned.  Afterwards — and
hence between two invalidations — a further `get` is a pure cache hit at
any fuel: compute runs at most once. -/
theorem claim_C5 (n id : Nat) (flags : MembersFlags) (s : Sys) (e : EntryRec)
    (hl : lookupE s id = some e) :
    (∀ v, e.value = some v → (engine (n + 1)).get id flags s = (.ok v, s)) ∧
    (e.value = none → e.isComputing = true →
      (engine (n + 1)).get id flags s =
        (.error .recursiveCompute, updEntry id (fun e => { e with isComputing := false }) s)) ∧
    (∀ t, e.value = none → e.isComputing = false →
      (engine n).compute id e.schema none flags
          (addEv (.computeE id) (updEntry id (fun e => { e with isComputing := true }) s)) =
        (.ok none, t) →
      (engine (n + 1)).get id flags s =
        (.error .computeKeepNoValue, updEntry id (fun e => { e with isComputing := false }) t)) ∧
    (∀ v t, e.value = none → e.isComputing = false →
      (engine n).compute id e.schema none flags
          (addEv (.computeE id) (updEntry id (fun e => { e with isComputing := true }) s)) =
        (.ok (some v), t) →
      (engine (n + 1)).get id flags s =
        (.ok v, updEntry id (fun e => { e with isComputing := false, value := some v }) t)) ∧
    (∀ er t, e.value = none → e.isComputing = false →
      (engine n).compute id e.schema none flags
          (addEv (.computeE id) (updEntry id (fun e => { e with isComputing := true }) s)) =
        (.error er, t) →
      (engine (n + 1)).get id flags s =
        (.error er, updEntry id (fun e => { e with isComputing := false }) t)) ∧
    (∀ v t e', e.value = none → e.isComputing = false →
      (engine n).compute id e.schema none flags
          (addEv (.computeE id) (updEntry id (fun e => { e with isComputing := true }) s)) =
        (.ok (some v), t) →
      lookupE t id = some e' →
      ∀ m, (engine (m + 1)).get id flags ((engine (n + 1)).get id flags s).2 =
        (.ok v, ((engine (n + 1)).get id flags s).2)) := by
  have hb : (engine (n + 1)).get id flags s = getBody (engine n) id flags s := rfl
  refine ⟨?_, ?_, ?_, ?_, ?_, ?_⟩
  · intro v hv
    exact get_cached_eq n id flags s e v hl hv
  · intro hv hc
    rw [hb]
    unfold getBody
    rw [hl]
    try dsimp only
    rw [hv]
    try dsimp only
    rw [if_pos hc]
  · intro t hv hc hcomp
    rw [hb]
    unfold getBody
    rw [hl]
    try dsimp only
    rw [hv]
    try dsimp only
    rw [if_neg (by rw [hc]; exact fun hx => Bool.noConfusion hx)]
    try dsimp only
    rw [hcomp]
  · intro v t hv hc hcomp
    exact get_compute_some_eq n id flags s e v t hl hv hc hcomp
  · intro er t hv hc hcomp
    rw [hb]
    unfold getBody
    rw [hl]
    try dsimp only
    rw [hv]
    try dsimp only
    rw [if_neg (by rw [hc]; exact fun hx => Bool.noConfusion hx)]
    try dsimp only
    rw [hcomp]
  · intro v t e' hv hc hcomp hlt m
    rw [get_compute_some_eq n id flags s e v t hl hv hc hcomp]
    refine get_cached_eq m id flags _
      { e' with isComputing := false, value := some v } v ?_ rfl
    rw [lookupE_updEntry_self, hlt]
    rfl

/-- C5 witness: the re-entrant case — a root scalar whose guard is held
(as `compute` would see it when re-entering `get()` on the same entry)
fails with the recursive-compute error and releases the guard. -/
theorem claim_C5_witness :
    lookupE reentrSys 0 = some { rootRec (.scalarS (.num 0) cmpNum) with isComputing := true } ∧
    (engine 5).get 0 MEMBERS_DEFAULT reentrSys =
      (.error .recursiveCompute, updEntry 0 (fun e => { e with isComputing := false }) reentrSys) :=
  ⟨rfl,
    (claim_C5 4 0 MEMBERS_DEFAULT reentrSys
        { rootRec (.scalarS (.num 0) cmpNum) with isComputing := true } rfl).2.1 rfl rfl⟩

/-! ### Claim C3 — the drain: fixed phase order, snapshot and clear -/

theorem runPhase_mem_iff (ops : Ops) (p p' : Phase) (id : Nat) (t : Sys) :
    ((p', id) ∈ (runPhase ops p t).2) ↔ (p' = p ∧ id ∈ phasePending p t) := by
  have hm : (runPhase ops p t).2 =
      (List.insertionSort (fun a b => depthOf t a ≤ depthOf t b) (phasePending p t)).map
        (fun i => (p, i)) := rfl
  rw [hm, List.mem_map]
  constructor
  · rintro ⟨i, hi, heq⟩
    injection heq with h1 h2
    exact ⟨h1.symm, h2 ▸ (List.perm_insertionSort _ _).mem_iff.mp hi⟩
  · rintro ⟨hp, hid⟩
    subst hp
    exact ⟨id, (List.perm_insertionSort _ _).mem_iff.mpr hid, rfl⟩

theorem runPhase_marker_phase (ops : Ops) (p : Phase) (t : Sys) :
    ∀ x ∈ (runPhase ops p t).2, x.1 = p := by
  intro x hx
  have hm : (runPhase ops p t).2 =
      (List.insertionSort (fun a b => depthOf t a ≤ depthOf t b) (phasePending p t)).map
        (fun i => (p, i)) := rfl
  rw [hm] at hx
  obtain ⟨i, _, heq⟩ := List.mem_map.mp hx
  rw [← heq]

theorem runPhase_marker_perm (ops : Ops) (p : Phase) (t : Sys) :
    List.Perm ((runPhase ops p t).2.map Prod.snd) (phasePending p t) := by
  have hm : (runPhase ops p t).2 =
      (List.insertionSort (fun a b => depthOf t a ≤ depthOf t b) (phasePending p t)).map
        (fun i => (p, i)) := rfl
  rw [hm, List.map_map]
  have hc : (Prod.snd ∘ fun i : Nat => (p, i)) = id := rfl
  rw [hc, List.map_id]
  exact List.perm_insertionSort _ _

/-- C3: when the scheduled callback fires, `_doUpdate` drains the three
pending sets in the fixed order recompute, notify, destroy: its marker
trace is exactly the recompute phase's, then the notify phase's (run on
the recompute phase's output state), then the destroy phase's markers.
Each phase processes a snapshot taken and cleared before iterating: the
cleared set is empty when processing starts, a phase's markers carry only
its own phase tag, and their ids are a permutation of the snapshot.  In
particular an entry has a recompute marker in the drain exactly when it
was in the pending recompute set *before* the drain — anything scheduled
for recompute while the drain runs is deferred to the next batch — and a
notify (resp. destroy) marker exactly when it is pending notify after the
recompute phase (resp. pending destroy after the notify phase). -/
theorem claim_C3 (ops : Ops) (s : Sys) :
    ((doUpdate ops s).2 =
      (runPhase ops .recomp { s with timeoutScheduled := false }).2 ++
      (runPhase ops .noti
        (runPhase ops .recomp { s with timeoutScheduled := false }).1).2 ++
      (runPhase ops .destr
        (runPhase ops .noti
          (runPhase ops .recomp { s with timeoutScheduled := false }).1).1).2) ∧
    (∀ p t, ∀ x ∈ (runPhase ops p t).2, x.1 = p) ∧
    (∀ p t, List.Perm ((runPhase ops p t).2.map Prod.snd) (phasePending p t)) ∧
    (∀ p t, phasePending p (clearPending p t) = []) ∧
    (∀ id, ((Phase.recomp, id) ∈ (doUpdate ops s).2 ↔ id ∈ s.toRecompute)) ∧
    (∀ id, ((Phase.noti, id) ∈ (doUpdate ops s).2 ↔
      id ∈ (runPhase ops .recomp { s with timeoutScheduled := false }).1.toNotify)) ∧
    (∀ id, ((Phase.destr, id) ∈ (doUpdate ops s).2 ↔
      id ∈ (runPhase ops .noti
        (runPhase ops .recomp { s with timeoutScheduled := false }).1).1.toDestroy)) := by
  have hskel : (doUpdate ops s).2 =
      (runPhase ops .recomp { s with timeoutScheduled := false }).2 ++
      (runPhase ops .noti
        (runPhase ops .recomp { s with timeoutScheduled := false }).1).2 ++
      (runPhase ops .destr
        (runPhase ops .noti
          (runPhase ops .recomp { s with timeoutScheduled := false }).1).1).2 := rfl
  refine ⟨hskel, fun p t => runPhase_marker_phase ops p t,
    fun p t => runPhase_marker_perm ops p t,
    fun p t => by cases p <;> rfl, ?_, ?_, ?_⟩
  · intro id
    rw [hskel]
    constructor
    · intro h
      rcases List.mem_append.mp h with h | h
      · rcases List.mem_append.mp h with h | h
        · exact ((runPhase_mem_iff ops _ _ _ _).mp h).2
        · exact absurd ((runPhase_mem_iff ops _ _ _ _).mp h).1 (fun hc => Phase.noConfusion hc)
      · exact absurd ((runPhase_mem_iff ops _ _ _ _).mp h).1 (fun hc => Phase.noConfusion hc)
    · intro h
      exact List.mem_append.mpr (Or.inl (List.mem_append.mpr (Or.inl ((runPhase_mem_iff ops _ _ _ _).mpr ⟨rfl, h⟩))))
  · intro id
    rw [hskel]
    constructor
    · intro h
      rcases List.mem_append.mp h with h | h
      · rcases List.mem_append.mp h with h | h
        · exact absurd ((runPhase_mem_iff ops _ _ _ _).mp h).1 (fun hc => Phase.noConfusion hc)
        · exact ((runPhase_mem_iff ops _ _ _ _).mp h).2
      · exact absurd ((runPhase_mem_iff ops _ _ _ _).mp h).1 (fun hc => Phase.noConfusion hc)
    · intro h
      exact List.mem_append.mpr (Or.inl (List.mem_append.mpr (Or.inr ((runPhase_mem_iff ops _ _ _ _).mpr ⟨rfl, h⟩))))
  · intro id
    rw [hskel]
    constructor
    · intro h
      rcases List.mem_append.mp h with h | h
      · rcases List.mem_append.mp h with h | h
        · exact absurd ((runPhase_mem_iff ops _ _ _ _).mp h).1 (fun hc => Phase.noConfusion hc)
        · exact absurd ((runPhase_mem_iff ops _ _ _ _).mp h).1 (fun hc => Phase.noConfusion hc)
      · exact ((runPhase_mem_iff ops _ _ _ _).mp h).2
    · intro h
      exact List.mem_append.mpr (Or.inr ((runPhase_mem_iff ops _ _ _ _).mpr ⟨rfl, h⟩))

/-! ### Claim C10 — depth-sorted phase processing -/

theorem findA_mem {κ α : Type} [DecidableEq κ] {k : κ} {v : α} :
    ∀ {l : List (κ × α)}, findA k l = some v → (k, v) ∈ l := by
  intro l
  induction l with
  | nil => intro h; exact Option.noConfusion h
  | cons p rest ih =>
    intro h
    rcases p with ⟨k', w⟩
    unfold findA at h
    by_cases hk : k = k'
    · rw [if_pos hk] at h
      injection h with h
      subst hk
      subst h
      exact List.mem_cons_self _ _
    · rw [if_neg hk] at h
      exact List.mem_cons_of_mem _ (ih h)

/-- In a depth-well-formed state every entry is exactly one level deeper
than its parent. -/
theorem wf_parent_depth {s : Sys} {b p : Nat} (hw : wfDepthB s = true)
    (hp : parentOf s b = some p) : depthOf s b = depthOf s p + 1 := by
  unfold parentOf at hp
  cases hb : lookupE s b with
  | none => rw [hb] at hp; exact Option.noConfusion hp
  | some e =>
    rw [hb] at hp
    dsimp only at hp
    have hmem : (b, e) ∈ s.entries := findA_mem hb
    have hall := List.all_eq_true.mp hw (b, e) hmem
    dsimp only at hall
    rw [hp] at hall
    dsimp only at hall
    cases hq : lookupE s p with
    | none => rw [hq] at hall; exact Bool.noConfusion hall
    | some pe =>
      rw [hq] at hall
      have hd : e.depth = pe.depth + 1 := by
        have := of_decide_eq_true hall
        exact this
      unfold depthOf
      rw [hb, hq]
      exact hd

/-- A bounded ancestor is strictly shallower in a depth-well-formed
state. -/
theorem ancestorB_depth_lt {s : Sys} (hw : wfDepthB s = true) :
    ∀ (k a b : Nat), ancestorB s k a b = true → depthOf s a < depthOf s b := by
  intro k
  induction k with
  | zero => intro a b h; exact Bool.noConfusion h
  | succ k ih =>
    intro a b h
    unfold ancestorB at h
    cases hp : parentOf s b with
    | none => rw [hp] at h; exact Bool.noConfusion h
    | some p =>
      rw [hp] at h
      have hdb : depthOf s b = depthOf s p + 1 := wf_parent_depth hw hp
      rcases Bool.or_eq_true_iff.mp h with h1 | h2
      · have : p = a := of_decide_eq_true h1
        subst this
        rw [hdb]
        exact Nat.lt_succ_self _
      · have := ih a p h2
        rw [hdb]
        exact Nat.lt_succ_of_lt this

theorem isAncestor_depth_lt {s : Sys} {a b : Nat} (hw : wfDepthB s = true)
    (h : isAncestor s a b = true) : depthOf s a < depthOf s b :=
  ancestorB_depth_lt hw _ a b h

/-- C10 (implicit): in the `common.ts` engine each drain phase processes
its snapshot sorted by ascending tree depth, so in a depth-well-formed
state an ancestor scheduled in the same batch as one of its descendants
is always processed before it (its marker index is strictly smaller). -/
theorem claim_C10 (ops : Ops) (p : Phase) (s : Sys) :
    List.Sorted (fun a b => depthOf s a ≤ depthOf s b)
      ((runPhase ops p s).2.map Prod.snd) ∧
    (wfDepthB s = true →
      ∀ (i j : Fin ((runPhase ops p s).2.map Prod.snd).length),
        isAncestor s (((runPhase ops p s).2.map Prod.snd).get i)
          (((runPhase ops p s).2.map Prod.snd).get j) = true → i < j) := by
  have hm : (runPhase ops p s).2.map Prod.snd =
      List.insertionSort (fun a b => depthOf s a ≤ depthOf s b) (phasePending p s) := by
    rw [show (runPhase ops p s).2 =
      (List.insertionSort (fun a b => depthOf s a ≤ depthOf s b) (phasePending p s)).map
        (fun i => (p, i)) from rfl, List.map_map]
    rw [show (Prod.snd ∘ fun i : Nat => (p, i)) = id from rfl, List.map_id]
  haveI : IsTotal Nat (fun a b => depthOf s a ≤ depthOf s b) :=
    ⟨fun a b => Nat.le_total (depthOf s a) (depthOf s b)⟩
  haveI : IsTrans Nat (fun a b => depthOf s a ≤ depthOf s b) :=
    ⟨fun a b c hab hbc => Nat.le_trans hab hbc⟩
  have hsorted : List.Sorted (fun a b => depthOf s a ≤ depthOf s b)
      ((runPhase ops p s).2.map Prod.snd) := by
    rw [hm]
    exact List.sorted_insertionSort _ _
  refine ⟨hsorted, ?_⟩
  intro hw i j hanc
  by_contra hij
  have hji : j ≤ i := not_lt.mp hij
  rcases lt_or_eq_of_le hji with hji | hji
  · have hr := List.pairwise_iff_get.mp hsorted j i hji
    have hlt := isAncestor_depth_lt hw hanc
    exact absurd (Nat.lt_of_lt_of_le hlt hr) (Nat.lt_irrefl _)
  · rw [hji] at hanc
    exact absurd (isAncestor_depth_lt hw hanc) (Nat.lt_irrefl _)

/-- C10 witness: the parent/child pair scheduled child-first — the notify
phase still processes the root (depth 0) before its member (depth 1). -/
theorem claim_C10_witness :
    wfDepthB ordSys = true ∧
    isAncestor ordSys
      (((runPhase opsN .noti ordSys).2.map Prod.snd).get ⟨0, by decide⟩)
      (((runPhase opsN .noti ordSys).2.map Prod.snd).get ⟨1, by decide⟩) = true ∧
    (⟨0, by decide⟩ : Fin ((runPhase opsN .noti ordSys).2.map Prod.snd).length) <
      ⟨1, by decide⟩ :=
  ⟨by decide, by decide,
    (claim_C10 opsN .noti ordSys).2 (by decide) ⟨0, by decide⟩ ⟨1, by decide⟩ (by decide)⟩

/-- C8 witness: the instance `d = 0`, `v = 1`, `k = "a"` with the
`Object.is` comparator. -/
theorem claim_C8_witness :
    cmpNum (.num 1) (.num 0) = false ∧
    (memberC 0 "a" (gc2 (.num 0) cmpNum "a" (.num 1))).1 = .ok 2 ∧
    ((engine 1).get 1 MEMBERS_DEFAULT (gc2 (.num 0) cmpNum "a" (.num 1))).1 =
      .error .destroyed :=
  ⟨rfl, (claim_C8 (.num 0) (.num 1) "a" cmpNum rfl rfl rfl).2.1,
    (claim_C8 (.num 0) (.num 1) "a" cmpNum rfl rfl rfl).2.2.2.2.1 0 MEMBERS_DEFAULT⟩

namespace Core

/-! ### Claim C9 — circular payloads: detection, messages, atomicity -/

theorem primEq_ref (c : Option SVal) (a : Nat) : primEq c (.ref a) = false := by
  cases c with
  | none => rfl
  | some sv => cases sv <;> rfl

/-- C9 counterexample: `update(store, "a", 10, "b", cyclic)` on the
two-replacement form.  The second replacement throws the circular error
at path `"b.c"`, no listener is notified — but the state is *not* "left
exactly as it was before the call": the first replacement's write
(`a = 10`) has already been assigned to the store. -/
theorem claim_C9_counterexample :
    updateStore [(0, [("c", JVal.ref 0)])] 10 none
        [("a", JVal.jnum 10), ("b", JVal.ref 0)] ["a", "b", "b.c"] =
      (some (.sobj [("a", .num 10)]), .error (.circular "b.c"), []) ∧
    (PErr.circular "b.c").message = "Circular reference detected at path \x22b.c\x22" ∧
    some (SVal.sobj [("a", SVal.num 10)]) ≠ (none : Option SVal) :=
  ⟨rfl, rfl, fun hc => Option.noConfusion hc⟩

theorem updateGo_no_notify (h : Heap) (fuel : Nat) (listeners : List String) :
    ∀ (pairs : List (String × JVal)) (s : Option SVal) (acc : List (String × SVal))
      (e : PErr),
      (updateGo h fuel listeners s acc pairs).2.1 = .error e →
      (updateGo h fuel listeners s acc pairs).2.2 = [] := by
  intro pairs
  induction pairs with
  | nil =>
    intro s acc e herr
    exact absurd herr (fun hc => Except.noConfusion hc)
  | cons pj rest ih =>
    intro s acc e herr
    rcases pj with ⟨sel, j⟩
    have hsh : updateGo h fuel listeners s acc ((sel, j) :: rest) =
        (match patchStateValue h fuel s sel j with
         | .error e => (s, .error e, [])
         | .ok (s', nts) => updateGo h fuel listeners s' (nts.foldl upsertNotify acc) rest) :=
      rfl
    rw [hsh] at herr ⊢
    cases hp : patchStateValue h fuel s sel j with
    | error e' => rfl
    | ok r =>
      rcases r with ⟨s', nts⟩
      rw [hp] at herr
      dsimp only at herr ⊢
      exact ih s' _ e herr

/-- The `.ref` arm of `patchValue`, unfolded one step. -/
theorem patchValue_ref_eq (h : Heap) (fuel : Nat) (seen : List Nat)
    (current : Option SVal) (a : Nat) (path : String) :
    patchValue h (fuel + 1) seen current (.ref a) path =
      (if primEq current (.ref a) then Except.ok (none, [])
       else if a ∈ seen then Except.error (PErr.circular path)
       else
         match findA a h with
         | none => Except.error PErr.dangling
         | some fields =>
           Bind.bind (patchFields h fuel (a :: seen) current fields path) fun x =>
             match x with
             | (changes, nts) =>
               match changes with
               | [] => Except.ok (none, nts)
               | _ =>
                 let old := match current with | some (.sobj fs) => fs | _ => []
                 let merged := SVal.sobj (applyChanges old changes)
                 Except.ok (some merged, nts ++ [(path, merged)])) := rfl

/-- C9 (amended): a payload reference back onto the current descent path
fails synchronously with the circular error carrying the path at which
the cycle was met, and that error's message names the path.  `patch` is
atomic on failure: the state is returned unchanged and no listener is
notified.  A single-replacement `update` is likewise atomic.  A
multi-replacement `update` notifies no-one on failure, but keeps the
state as of the last completed replacement (`patchStore` assigns
`storeImpl._state` inside the loop), so earlier replacements stay
applied — the cited atomicity holds for the state only per replacement,
not across one `update` call. -/

theorem claim_C9 (h : Heap) (fuel : Nat) (state : Option SVal)
    (listeners : List String) :
    (∀ (a : Nat) (path : String) (current : Option SVal) (seen : List Nat),
      a ∈ seen →
      patchValue h (fuel + 1) seen current (.ref a) path = .error (.circular path)) ∧
    (∀ path, (PErr.circular path).message =
      "Circular reference detected at path \x22" ++ path ++ "\x22") ∧
    (∀ (j : JVal) (e : PErr),
      (patchStore1 h fuel state j listeners).2.1 = .error e →
      (patchStore1 h fuel state j listeners).1 = state ∧
      (patchStore1 h fuel state j listeners).2.2 = []) ∧
    (∀ (sel : String) (j : JVal) (e : PErr),
      (updateStore h fuel state [(sel, j)] listeners).2.1 = .error e →
      (updateStore h fuel state [(sel, j)] listeners).1 = state ∧
      (updateStore h fuel state [(sel, j)] listeners).2.2 = []) ∧
    (∀ (pairs : List (String × JVal)) (e : PErr),
      (updateStore h fuel state pairs listeners).2.1 = .error e →
      (updateStore h fuel state pairs listeners).2.2 = []) := by
  refine ⟨?_, fun path => rfl, ?_, ?_, ?_⟩
  · intro a path current seen hmem
    rw [patchValue_ref_eq h fuel seen current a path,
        if_neg (by rw [primEq_ref current a]; exact fun hc => Bool.noConfusion hc),
        if_pos hmem]
  · intro j e herr
    unfold patchStore1 at herr ⊢
    cases hp : patchStateValue h fuel state "" j with
    | error e' => exact ⟨rfl, rfl⟩
    | ok r =>
      rcases r with ⟨s', nts⟩
      rw [hp] at herr
      dsimp only at herr
      exact absurd herr (fun hc => Except.noConfusion hc)
  · intro sel j e herr
    have hsh : updateStore h fuel state [(sel, j)] listeners =
        (match patchStateValue h fuel state sel j with
         | .error e => (state, .error e, [])
         | .ok (s', nts) =>
           updateGo h fuel listeners s' (nts.foldl upsertNotify []) []) := rfl
    rw [hsh] at herr ⊢
    cases hp : patchStateValue h fuel state sel j with
    | error e' => exact ⟨rfl, rfl⟩
    | ok r =>
      rcases r with ⟨s', nts⟩
      rw [hp] at herr
      dsimp only at herr
      exact absurd herr (fun hc => Except.noConfusion hc)
  · intro pairs e herr
    exact updateGo_no_notify h fuel listeners pairs state [] e herr

/-- C9 witness: a single-replacement `update` writing the cyclic object
at selector `"b"` — the circular error at path `"b.c"`, the state
untouched, nobody notified. -/
theorem claim_C9_witness :
    (updateStore [(0, [("c", JVal.ref 0)])] 5 none [("b", JVal.ref 0)] ["b"]).2.1 =
      .error (.circular "b.c") ∧
    (updateStore [(0, [("c", JVal.ref 0)])] 5 none [("b", JVal.ref 0)] ["b"]).1 = none ∧
    (updateStore [(0, [("c", JVal.ref 0)])] 5 none [("b", JVal.ref 0)] ["b"]).2.2 = [] :=
  ⟨rfl,
    ((claim_C9 [(0, [("c", JVal.ref 0)])] 5 none ["b"]).2.2.2.1 "b" (.ref 0)
        (.circular "b.c") rfl).1,
    ((claim_C9 [(0, [("c", JVal.ref 0)])] 5 none ["b"]).2.2.2.1 "b" (.ref 0)
        (.circular "b.c") rfl).2⟩

end Core

end TinyState
